import Mathlib

/-
  Shallow embedding of the generic adversarial search engine
  (src/prelude.rs, src/search.rs) and of the Stockman example game
  (src/games/stockman.rs).

  The `GameHandler`/`GamePosition` pair is modelled as a `Game` record whose
  evaluation type is `Int` (a linearly ordered abelian group, matching the
  trait bounds `Ord + Neg + Add + Sub` of the Rust `Eval` associated type).
  Legal move generation is a finite list (the Rust iterator is lazy but pure
  and finite).  The `Searcher` leaf counter is threaded explicitly: every
  search function takes the current count and returns the updated count.
  Principal variations are lists of optional moves of length `maxDepth`,
  matching the Rust fixed arrays `[Option<Move>; MAX_DEPTH]`.
-/

namespace TreeSearch

/-- The `GamePosition` + `GameHandler` contracts of src/prelude.rs, bundled. -/
structure Game (Pos Move : Type) where
  legalMoves : Pos → List Move
  playMove : Pos → Move → Pos
  evaluate : Pos → Nat → Nat → Int
  evalMin : Int
  evalMax : Int
  evalEps : Int

/-- Principal variation: fixed-length array of optional moves. -/
abbrev PV (Move : Type) := List (Option Move)

/-- The all-`None` PV of a given length (`[None; MAX_DEPTH]` in the source). -/
def allNone (Move : Type) (n : Nat) : PV Move := List.replicate n none

/-- Indexed array write `l[i] = x` (in-range in all uses, as in the source
arrays of length `MAX_DEPTH`). -/
def setIdx {α : Type} : List α → Nat → α → List α
  | [], _, _ => []
  | _ :: t, 0, x => x :: t
  | h :: t, n + 1, x => h :: setIdx t n x

/-- Indexed array read with an explicit default (all uses are in range). -/
def listGetD {α : Type} : List α → Nat → α → α
  | [], _, d0 => d0
  | x :: _, 0, _ => x
  | _ :: t, n + 1, d0 => listGetD t n d0

section Algorithms

variable {Pos Move : Type}

/-- Inner move loop of Algorithm A (`branch_and_bound`, src/search.rs:188-214).
`recur` is the recursive search one ply deeper; `idx` is `MAX_DEPTH - depth`. -/
def bb_go (g : Game Pos Move) (bound : Int)
    (recur : Pos → Int → Nat → Int × PV Move × Nat)
    (pos : Pos) (idx : Nat) :
    Move → List Move → Int → PV Move → Nat → Int × PV Move × Nat
  | mv, rest, m, pv, cnt =>
    let r := recur (g.playMove pos mv) (-m) cnt
    let t := -r.1
    let line := setIdx r.2.1 idx (some mv)
    let m2 := if t > m then t else m
    let pv2 := if t > m then line else pv
    if m2 ≥ bound then (m2, line, r.2.2)
    else
      match rest with
      | [] => (m2, pv2, r.2.2)
      | mv2 :: rest2 => bb_go g bound recur pos idx mv2 rest2 m2 pv2 r.2.2

/-- Algorithm A: `Searcher::branch_and_bound` (src/search.rs:162-222). -/
def branch_and_bound (g : Game Pos Move) (maxDepth : Nat) :
    Nat → Pos → Int → Nat → Int × PV Move × Nat
  | 0, pos, _bound, cnt => (g.evaluate pos 0 maxDepth, allNone Move maxDepth, cnt + 1)
  | depth + 1, pos, bound, cnt =>
    match g.legalMoves pos with
    | [] => (g.evaluate pos (depth + 1) maxDepth, allNone Move maxDepth, cnt + 1)
    | mv :: rest =>
      bb_go g bound (branch_and_bound g maxDepth depth) pos (maxDepth - (depth + 1))
        mv rest g.evalMin (allNone Move maxDepth) cnt

/-- Inner move loop of Algorithm B (`alpha_beta`, src/search.rs:252-279). -/
def ab_go (g : Game Pos Move) (beta : Int)
    (recur : Pos → Int → Int → Nat → Int × PV Move × Nat)
    (pos : Pos) (idx : Nat) :
    Move → List Move → Int → PV Move → Nat → Int × PV Move × Nat
  | mv, rest, m, pv, cnt =>
    let r := recur (g.playMove pos mv) (-beta) (-m) cnt
    let t := -r.1
    let line := setIdx r.2.1 idx (some mv)
    let m2 := if t > m then t else m
    let pv2 := if t > m then line else pv
    if m2 ≥ beta then (m2, line, r.2.2)
    else
      match rest with
      | [] => (m2, pv2, r.2.2)
      | mv2 :: rest2 => ab_go g beta recur pos idx mv2 rest2 m2 pv2 r.2.2

/-- Algorithm B: `Searcher::alpha_beta` (src/search.rs:225-287). -/
def alpha_beta (g : Game Pos Move) (maxDepth : Nat) :
    Nat → Pos → Int → Int → Nat → Int × PV Move × Nat
  | 0, pos, _alpha, _beta, cnt => (g.evaluate pos 0 maxDepth, allNone Move maxDepth, cnt + 1)
  | depth + 1, pos, alpha, beta, cnt =>
    match g.legalMoves pos with
    | [] => (g.evaluate pos (depth + 1) maxDepth, allNone Move maxDepth, cnt + 1)
    | mv :: rest =>
      ab_go g beta (alpha_beta g maxDepth depth) pos (maxDepth - (depth + 1))
        mv rest alpha (allNone Move maxDepth) cnt

/-- Inner move loop of the null-window auxiliary (`f_alpha_beta`,
src/search.rs:390-417): the child window is `[-beta, -max(m, alpha)]`. -/
def fab_go (g : Game Pos Move) (alpha beta : Int)
    (recur : Pos → Int → Int → Nat → Int × PV Move × Nat)
    (pos : Pos) (idx : Nat) :
    Move → List Move → Int → PV Move → Nat → Int × PV Move × Nat
  | mv, rest, m, pv, cnt =>
    let r := recur (g.playMove pos mv) (-beta) (-(max m alpha)) cnt
    let t := -r.1
    let line := setIdx r.2.1 idx (some mv)
    let m2 := if t > m then t else m
    let pv2 := if t > m then line else pv
    if m2 ≥ beta then (m2, line, r.2.2)
    else
      match rest with
      | [] => (m2, pv2, r.2.2)
      | mv2 :: rest2 => fab_go g alpha beta recur pos idx mv2 rest2 m2 pv2 r.2.2

/-- `Searcher::f_alpha_beta` (src/search.rs:363-425), the probing and
re-search engine of Algorithm C: starts from `m = EVAL_MINIMUM`. -/
def f_alpha_beta (g : Game Pos Move) (maxDepth : Nat) :
    Nat → Pos → Int → Int → Nat → Int × PV Move × Nat
  | 0, pos, _alpha, _beta, cnt => (g.evaluate pos 0 maxDepth, allNone Move maxDepth, cnt + 1)
  | depth + 1, pos, alpha, beta, cnt =>
    match g.legalMoves pos with
    | [] => (g.evaluate pos (depth + 1) maxDepth, allNone Move maxDepth, cnt + 1)
    | mv :: rest =>
      fab_go g alpha beta (f_alpha_beta g maxDepth depth) pos (maxDepth - (depth + 1))
        mv rest g.evalMin (allNone Move maxDepth) cnt

/-- Probe/re-search loop of Algorithm C (`p_alpha_beta`, src/search.rs:321-353).
`dm1` is `depth - 1`. Each remaining child is probed with the null window
`[-m - EVAL_EPSILON, -m]`; on `t > m` it is re-searched with
`[EVAL_MINIMUM, -t]` (both via `f_alpha_beta`, per the source comment citing
Fishburn and Finkel). -/
def pab_loop (g : Game Pos Move) (maxDepth dm1 idx : Nat) (pos : Pos) :
    List Move → Int → PV Move → Nat → Int × PV Move × Nat
  | [], m, pv, cnt => (m, pv, cnt)
  | mv :: rest, m, pv, cnt =>
    let nextPos := g.playMove pos mv
    let pr := f_alpha_beta g maxDepth dm1 nextPos (-m - g.evalEps) (-m) cnt
    let t := -pr.1
    if t > m then
      let rr := f_alpha_beta g maxDepth dm1 nextPos g.evalMin (-t) pr.2.2
      let line := setIdx rr.2.1 idx (some mv)
      pab_loop g maxDepth dm1 idx pos rest (-rr.1) line rr.2.2
    else pab_loop g maxDepth dm1 idx pos rest m pv pr.2.2

/-- Algorithm C: `Searcher::p_alpha_beta` (src/search.rs:290-361). -/
def p_alpha_beta (g : Game Pos Move) (maxDepth : Nat) :
    Nat → Pos → Nat → Int × PV Move × Nat
  | 0, pos, cnt => (g.evaluate pos 0 maxDepth, allNone Move maxDepth, cnt + 1)
  | depth + 1, pos, cnt =>
    match g.legalMoves pos with
    | [] => (g.evaluate pos (depth + 1) maxDepth, allNone Move maxDepth, cnt + 1)
    | mv :: rest =>
      let r := p_alpha_beta g maxDepth depth (g.playMove pos mv) cnt
      let m := -r.1
      let pv := setIdx r.2.1 (maxDepth - (depth + 1)) (some mv)
      pab_loop g maxDepth depth (maxDepth - (depth + 1)) pos rest m pv r.2.2

/-- Inner move loop of Algorithm D (`pvs`, src/search.rs:465-500): null-window
probe at `bound = max(m, alpha)`, conditional full re-search `[-beta, -t]`,
cutoff at `m ≥ beta`. -/
def pvs_go (g : Game Pos Move) (alpha beta : Int)
    (recur : Pos → Int → Int → Nat → Int × PV Move × Nat)
    (pos : Pos) (idx : Nat) :
    List Move → Int → PV Move → Nat → Int × PV Move × Nat
  | [], m, pv, cnt => (m, pv, cnt)
  | mv :: rest, m, pv, cnt =>
    let bound := max m alpha
    let nextPos := g.playMove pos mv
    let pr := recur nextPos (-bound - g.evalEps) (-bound) cnt
    let t := -pr.1
    let next :=
      if t > m then
        let rr := recur nextPos (-beta) (-t) pr.2.2
        (-rr.1, setIdx rr.2.1 idx (some mv), rr.2.2)
      else (m, pv, pr.2.2)
    if next.1 ≥ beta then next
    else pvs_go g alpha beta recur pos idx rest next.1 next.2.1 next.2.2

/-- Algorithm D: `Searcher::pvs` (src/search.rs:428-509).  The first child is
searched with the full window; the loop runs only when `m < beta`. -/
def pvs (g : Game Pos Move) (maxDepth : Nat) :
    Nat → Pos → Int → Int → Nat → Int × PV Move × Nat
  | 0, pos, _alpha, _beta, cnt => (g.evaluate pos 0 maxDepth, allNone Move maxDepth, cnt + 1)
  | depth + 1, pos, alpha, beta, cnt =>
    match g.legalMoves pos with
    | [] => (g.evaluate pos (depth + 1) maxDepth, allNone Move maxDepth, cnt + 1)
    | mv :: rest =>
      let r := pvs g maxDepth depth (g.playMove pos mv) (-beta) (-alpha) cnt
      let m := -r.1
      let pv := setIdx r.2.1 (maxDepth - (depth + 1)) (some mv)
      if m < beta then
        pvs_go g alpha beta (pvs g maxDepth depth) pos (maxDepth - (depth + 1))
          rest m pv r.2.2
      else (m, pv, r.2.2)

/-- Inner move loop of the boolean feasibility procedure (`test`,
src/search.rs:606-625): succeeds as soon as one child's nested test fails. -/
def test_go (g : Game Pos Move)
    (recur : Pos → Int → Bool → Nat → Bool × Nat) (pos : Pos) (v : Int) (op : Bool) :
    Move → List Move → Nat → Bool × Nat
  | mv, rest, cnt =>
    let r := recur (g.playMove pos mv) (-v) (!op) cnt
    if !r.1 then (true, r.2)
    else
      match rest with
      | [] => (false, r.2)
      | mv2 :: rest2 => test_go g recur pos v op mv2 rest2 r.2

/-- `Searcher::test` (src/search.rs:578-637): the feasibility test of scout.
`maxDepth` is a runtime argument in the source, matching `max_depth`. -/
def test (g : Game Pos Move) :
    Nat → Pos → Nat → Int → Bool → Nat → Bool × Nat
  | 0, pos, maxDepth, v, op, cnt =>
    ((if op then decide (g.evaluate pos 0 maxDepth ≥ v)
      else decide (g.evaluate pos 0 maxDepth > v)), cnt + 1)
  | depth + 1, pos, maxDepth, v, op, cnt =>
    match g.legalMoves pos with
    | [] =>
      ((if op then decide (g.evaluate pos (depth + 1) maxDepth ≥ v)
        else decide (g.evaluate pos (depth + 1) maxDepth > v)), cnt + 1)
    | mv :: rest =>
      test_go g (fun p v2 op2 c => test g depth p maxDepth v2 op2 c) pos v op mv rest cnt

/-- Inner move loop of Algorithm E (`scout`, src/search.rs:546-568): each
remaining child is tried with `test` at threshold `-m`, polarity `!op` where
`op = true`; a failed refutation triggers a full re-search. -/
def scout_go (g : Game Pos Move) (maxDepth dm1 idx : Nat)
    (recur : Pos → Nat → Int × PV Move × Nat) (pos : Pos) :
    List Move → Int → PV Move → Nat → Int × PV Move × Nat
  | [], m, pv, cnt => (m, pv, cnt)
  | mv :: rest, m, pv, cnt =>
    let op := true
    let nextPos := g.playMove pos mv
    let tr := test g dm1 nextPos maxDepth (-m) (!op) cnt
    if !tr.1 then
      let rr := recur nextPos tr.2
      let line := setIdx rr.2.1 idx (some mv)
      scout_go g maxDepth dm1 idx recur pos rest (-rr.1) line rr.2.2
    else scout_go g maxDepth dm1 idx recur pos rest m pv tr.2

/-- Algorithm E: `Searcher::scout` (src/search.rs:512-576). -/
def scout (g : Game Pos Move) (maxDepth : Nat) :
    Nat → Pos → Nat → Int × PV Move × Nat
  | 0, pos, cnt => (g.evaluate pos 0 maxDepth, allNone Move maxDepth, cnt + 1)
  | depth + 1, pos, cnt =>
    match g.legalMoves pos with
    | [] => (g.evaluate pos (depth + 1) maxDepth, allNone Move maxDepth, cnt + 1)
    | mv :: rest =>
      let r := scout g maxDepth depth (g.playMove pos mv) cnt
      scout_go g maxDepth depth (maxDepth - (depth + 1)) (scout g maxDepth depth) pos
        rest (-r.1) (setIdx r.2.1 (maxDepth - (depth + 1)) (some mv)) r.2.2

end Algorithms

/-- The SSS* OPEN-list state (the local `State` enum of `Searcher::sss`,
src/search.rs:653-674): a tagged Live/Solved node with position, merit pair,
remaining depth, partial line from the root and insertion-order tag. -/
inductive SState (Pos Move : Type) where
  | live (node : Pos) (merit : Int × PV Move) (depth : Nat) (line : PV Move) (iteration : Nat)
  | solved (node : Pos) (merit : Int × PV Move) (depth : Nat) (line : PV Move) (iteration : Nat)
deriving DecidableEq

namespace SState

variable {Pos Move : Type}

/-- The `node` field common to both variants. -/
def node : SState Pos Move → Pos
  | live n _ _ _ _ => n
  | solved n _ _ _ _ => n

/-- `State::merit` accessor (src/search.rs:682-699). -/
def merit : SState Pos Move → Int × PV Move
  | live _ mer _ _ _ => mer
  | solved _ mer _ _ _ => mer

/-- `State::depth` accessor (src/search.rs:701-718). -/
def depth : SState Pos Move → Nat
  | live _ _ d _ _ => d
  | solved _ _ d _ _ => d

/-- `State::line` accessor (src/search.rs:720-737). -/
def line : SState Pos Move → PV Move
  | live _ _ _ l _ => l
  | solved _ _ _ l _ => l

/-- `State::iteration` accessor (src/search.rs:739-756). -/
def iteration : SState Pos Move → Nat
  | live _ _ _ _ it => it
  | solved _ _ _ _ it => it

/-- `State::is_max_player` (src/search.rs:758-760): parity of
`max_depth - depth`. -/
def is_max_player (s : SState Pos Move) (maxDepth : Nat) : Bool :=
  (maxDepth - s.depth) % 2 == 0

end SState

/-- The total order on OPEN-list states (`Ord for State`, src/search.rs:780-785):
merit value first, then insertion tag, both ascending.  `state_le s t` holds
when `s.cmp(t) != Greater`. -/
def state_le {Pos Move : Type} (s t : SState Pos Move) : Bool :=
  decide (s.merit.1 < t.merit.1) ||
    (decide (s.merit.1 = t.merit.1) && decide (s.iteration ≤ t.iteration))

section Heap

/-
  A faithful model of `std::collections::BinaryHeap` (a max-heap over a `Vec`
  with 0-based indexing, children of `i` at `2i+1` and `2i+2`), restricted to
  the operations the source uses: `push`, `pop` and `retain`.  The sifting
  routines mirror the standard library (`sift_up`, `sift_down_to_bottom`,
  `sift_down_range`, `rebuild`, `rebuild_tail`), including which of two
  equal-keyed children is preferred, because the pop order among `Ord`-equal
  states is decided by exactly these details.  `le` is the element order and
  `d0` a default for the (always in-range) raw reads.
-/

variable {α : Type}

/-- `BinaryHeap::sift_up` with the hole element `x` made explicit: walk the
hole from `pos` toward `start`, moving lesser parents down, then write `x`.
The fuel is an upper bound on `pos` (the position strictly decreases). -/
def sift_up_aux (le : α → α → Bool) (d0 : α) :
    Nat → List α → Nat → Nat → α → List α
  | 0, data, _, pos, x => setIdx data pos x
  | fuel + 1, data, start, pos, x =>
    if pos ≤ start then setIdx data pos x
    else
      let parent := (pos - 1) / 2
      if le x (listGetD data parent d0) then setIdx data pos x
      else sift_up_aux le d0 fuel (setIdx data pos (listGetD data parent d0)) start parent x

/-- `BinaryHeap::sift_up(start, pos)` reading the hole element at `pos`. -/
def sift_up (le : α → α → Bool) (d0 : α) (data : List α) (start pos : Nat) : List α :=
  sift_up_aux le d0 pos data start pos (listGetD data pos d0)

/-- `BinaryHeap::push`: append, then sift the new element up from the end. -/
def heap_push (le : α → α → Bool) (d0 : α) (data : List α) (x : α) : List α :=
  sift_up le d0 (data ++ [x]) 0 data.length

/-- Downward phase of `BinaryHeap::sift_down_to_bottom`: move the hole to the
bottom, always taking the greater child (ties prefer the right child). -/
def sdtb_loop (le : α → α → Bool) (d0 : α) (endd : Nat) :
    Nat → List α → Nat → List α × Nat
  | 0, data, pos => (data, pos)
  | fuel + 1, data, pos =>
    let child := 2 * pos + 1
    if child + 2 ≤ endd then
      let child2 :=
        if le (listGetD data child d0) (listGetD data (child + 1) d0) then child + 1 else child
      sdtb_loop le d0 endd fuel (setIdx data pos (listGetD data child2 d0)) child2
    else if child + 1 == endd then
      (setIdx data pos (listGetD data child d0), child)
    else (data, pos)

/-- `BinaryHeap::sift_down_to_bottom(pos)`: take the hole to the bottom, then
sift the hole element back up. -/
def sift_down_to_bottom (le : α → α → Bool) (d0 : α) (data : List α) (pos : Nat) : List α :=
  let endd := data.length
  let x := listGetD data pos d0
  let down := sdtb_loop le d0 endd endd data pos
  sift_up_aux le d0 down.2 down.1 pos down.2 x

/-- `BinaryHeap::pop`: remove the last element; if the heap is still nonempty
swap it with the root and restore the heap shape.  Returns the popped maximum
and the remaining heap. -/
def heap_pop (le : α → α → Bool) (d0 : α) (data : List α) : Option (α × List α) :=
  match data with
  | [] => none
  | _ :: _ =>
    let item := listGetD data (data.length - 1) d0
    let rest := data.dropLast
    match rest with
    | [] => some (item, [])
    | _ :: _ =>
      some (listGetD rest 0 d0, sift_down_to_bottom le d0 (setIdx rest 0 item) 0)

/-- Loop of `BinaryHeap::sift_down_range` with explicit hole element `x`:
stop early as soon as `x` is no less than the greater child. -/
def sdr_loop (le : α → α → Bool) (d0 : α) (x : α) (endd : Nat) :
    Nat → List α → Nat → List α
  | 0, data, pos => setIdx data pos x
  | fuel + 1, data, pos =>
    let child := 2 * pos + 1
    if child + 2 ≤ endd then
      let child2 :=
        if le (listGetD data child d0) (listGetD data (child + 1) d0) then child + 1 else child
      if le (listGetD data child2 d0) x then setIdx data pos x
      else sdr_loop le d0 x endd fuel (setIdx data pos (listGetD data child2 d0)) child2
    else if child + 1 == endd && !le (listGetD data child d0) x then
      setIdx (setIdx data pos (listGetD data child d0)) child x
    else setIdx data pos x

/-- `BinaryHeap::sift_down_range(pos, end)`. -/
def sift_down_range (le : α → α → Bool) (d0 : α) (data : List α) (pos endd : Nat) : List α :=
  sdr_loop le d0 (listGetD data pos d0) endd endd data pos

/-- `BinaryHeap::rebuild`: sift down every non-leaf index, from `len/2 - 1`
down to `0`. -/
def rebuild_loop (le : α → α → Bool) (d0 : α) (len : Nat) :
    Nat → List α → List α
  | 0, data => data
  | n + 1, data => rebuild_loop le d0 len n (sift_down_range le d0 data n len)

/-- `for i in start.. : sift_up(0, i)` — the incremental branch of
`rebuild_tail`; the second argument is the number of indices left. -/
def sift_up_from (le : α → α → Bool) (d0 : α) :
    Nat → Nat → List α → List α
  | _, 0, data => data
  | i, k + 1, data => sift_up_from le d0 (i + 1) k (sift_up le d0 data 0 i)

/-- Floor base-2 logarithm (the `log2_fast` helper of `rebuild_tail`),
structurally recursive on a fuel bound. -/
def log2_fast_aux : Nat → Nat → Nat
  | 0, _ => 0
  | fuel + 1, x => if x ≥ 2 then log2_fast_aux fuel (x / 2) + 1 else 0

/-- `log2_fast(x)` of the standard library's `rebuild_tail`. -/
def log2_fast (x : Nat) : Nat := log2_fast_aux x x

/-- The length of the maximal prefix every element of which is kept: the
`rebuild_start` index computed by `BinaryHeap::retain`. -/
def lead_kept (pred : α → Bool) : List α → Nat
  | [] => 0
  | x :: t => if pred x then lead_kept pred t + 1 else 0

/-- `BinaryHeap::retain`: filter the backing vector in order, then rebuild the
tail starting at the first removal, choosing between a full `rebuild` and
repeated `sift_up` by the standard library's cost estimate. -/
def heap_retain (le : α → α → Bool) (d0 : α) (pred : α → Bool) (data : List α) : List α :=
  let kept := data.filter pred
  let fr := lead_kept pred data
  if fr == kept.length then kept
  else
    let len := kept.length
    let tailLen := len - fr
    let better :=
      if fr < tailLen then true
      else if len ≤ 2048 then decide (2 * len < tailLen * log2_fast fr)
      else decide (2 * len < tailLen * 11)
    if better then rebuild_loop le d0 len (len / 2) kept
    else sift_up_from le d0 fr (len - fr) kept

end Heap

section SSS

variable {Pos Move : Type} [DecidableEq Pos] [DecidableEq Move]

/-- Outcome of the iterative SSS* loop: a normal return, the
`panic!("State space operator is faulty")` on OPEN exhaustion
(src/search.rs:951), or the `mv.unwrap()` panic in the parent replay
(src/search.rs:825). -/
inductive SSSResult (Move : Type) where
  | ok (value : Int) (pv : PV Move) (cnt : Nat)
  | stateSpacePanic
  | unwrapPanic
deriving DecidableEq

/-- The parent-reconstruction replay (src/search.rs:822-826):
`for mv in l.iter().take(k) { parent = parent.play_move(mv.unwrap()) }`.
`none` models the `unwrap` panic on an empty slot. -/
def replayTake (g : Game Pos Move) : Pos → PV Move → Nat → Option Pos
  | p, _, 0 => some p
  | p, [], _ + 1 => some p
  | _, none :: _, _ + 1 => none
  | p, some mv :: rest, k + 1 => replayTake g (g.playMove p mv) rest k

/-- `l[k] = Some(next_move); for i in k+1..MAX_DEPTH { l[i] = None; }`
(src/search.rs:833-836). -/
def clear_from (l : PV Move) (k maxDepth : Nat) : PV Move :=
  l.take k ++ List.replicate (maxDepth - k) none

/-- `handler.get_legal_moves(parent).skip_while(|&mv| parent.play_move(mv) != n).nth(1)`
(src/search.rs:828-832): the sibling move immediately after the one leading
to `n`. -/
def next_sibling (g : Game Pos Move) (parent n : Pos) : Option Move :=
  (((g.legalMoves parent).dropWhile (fun mv => decide (g.playMove parent mv ≠ n))).drop 1).head?

/-- The retain predicate of Case 1 (src/search.rs:857-864): keep a state iff
its line differs from `l` somewhere in the first `pl` slots. -/
def purge_keep (l : PV Move) (pl : Nat) (s : SState Pos Move) : Bool :=
  ((s.line.zip l).take pl).any (fun bd => decide (bd.1 ≠ bd.2))

/-- One iteration body plus loop of `Searcher::sss` (src/search.rs:810-950),
with explicit fuel.  Returns the list of popped states (the pop trace) and
the loop outcome (`none` = fuel exhausted).  `depthArg` is the `depth`
argument of `sss`; the leaf branches use it — not the popped state's own
depth — both in `evaluate` and in the negamax parity test, exactly as in the
source (src/search.rs:885-889 and 933-937). -/
def sss_loop (g : Game Pos Move) (maxDepth depthArg : Nat) (root : Pos)
    (d0 : SState Pos Move) :
    Nat → List (SState Pos Move) → Nat → Nat →
      List (SState Pos Move) × Option (SSSResult Move)
  | 0, _, _, _ => ([], none)
  | fuel + 1, heap, i, cnt =>
    match heap_pop state_le d0 heap with
    | none => ([], some SSSResult.stateSpacePanic)
    | some (st, rest) =>
      match st with
      | SState.solved n (h, pv) d l _it =>
        if d == maxDepth then ([st], some (SSSResult.ok h pv cnt))
        else
          let pl := maxDepth - d - 1
          match replayTake g root l pl with
          | none => ([st], some SSSResult.unwrapPanic)
          | some parent =>
            if st.is_max_player maxDepth then
              match next_sibling g parent n with
              | some nextMove =>
                -- Case 2.
                let l2 := clear_from (setIdx l pl (some nextMove)) (pl + 1) maxDepth
                let heap2 := heap_push state_le d0 rest
                  (SState.live (g.playMove parent nextMove) (h, pv) d l2 i)
                let r := sss_loop g maxDepth depthArg root d0 fuel heap2 (i + 1) cnt
                (st :: r.1, r.2)
              | none =>
                -- Case 3.
                let heap2 := heap_push state_le d0 rest
                  (SState.solved parent (h, pv) (d + 1) l i)
                let r := sss_loop g maxDepth depthArg root d0 fuel heap2 (i + 1) cnt
                (st :: r.1, r.2)
            else
              -- Case 1.
              let rest2 := heap_retain state_le d0 (purge_keep l pl) rest
              let heap2 := heap_push state_le d0 rest2
                (SState.solved parent (h, pv) (d + 1) l i)
              let r := sss_loop g maxDepth depthArg root d0 fuel heap2 (i + 1) cnt
              (st :: r.1, r.2)
      | SState.live n (h, pv) d l _it =>
        if d == 0 then
          let ev0 := g.evaluate n depthArg maxDepth
          let ev := if (maxDepth - depthArg) % 2 == 0 then ev0 else -ev0
          let heap2 := heap_push state_le d0 rest
            (SState.solved n (if h < ev then (h, pv) else (ev, l)) d l i)
          let r := sss_loop g maxDepth depthArg root d0 fuel heap2 (i + 1) (cnt + 1)
          (st :: r.1, r.2)
        else
          match g.legalMoves n with
          | firstMove :: restMoves =>
            if st.is_max_player maxDepth then
              -- Case 6: expand every child of a Max node.
              let heap2 := restMoves.foldl
                (fun hp mv => heap_push state_le d0 hp
                  (SState.live (g.playMove n mv) (h, pv) (d - 1)
                    (setIdx l (maxDepth - d) (some mv)) i))
                (heap_push state_le d0 rest
                  (SState.live (g.playMove n firstMove) (h, pv) (d - 1)
                    (setIdx l (maxDepth - d) (some firstMove)) i))
              let r := sss_loop g maxDepth depthArg root d0 fuel heap2 (i + 1) cnt
              (st :: r.1, r.2)
            else
              -- Case 5: expand only the first child of a Min node.
              let heap2 := heap_push state_le d0 rest
                (SState.live (g.playMove n firstMove) (h, pv) (d - 1)
                  (setIdx l (maxDepth - d) (some firstMove)) i)
              let r := sss_loop g maxDepth depthArg root d0 fuel heap2 (i + 1) cnt
              (st :: r.1, r.2)
          | [] =>
            -- Case 4 on a no-move node.
            let ev0 := g.evaluate n depthArg maxDepth
            let ev := if (maxDepth - depthArg) % 2 == 0 then ev0 else -ev0
            let heap2 := heap_push state_le d0 rest
              (SState.solved n (if h < ev then (h, pv) else (ev, l)) d l i)
            let r := sss_loop g maxDepth depthArg root d0 fuel heap2 (i + 1) (cnt + 1)
            (st :: r.1, r.2)

/-- The initial Live root state pushed at src/search.rs:797-806. -/
def sss_init (g : Game Pos Move) (maxDepth depthArg : Nat) (root : Pos) : SState Pos Move :=
  SState.live root (g.evalMax, allNone Move maxDepth) depthArg (allNone Move maxDepth) 0

/-- Algorithm F: `Searcher::sss` (src/search.rs:640-952) with explicit fuel:
pop trace and outcome of the OPEN-list loop started from the Live root. -/
def sss_run (g : Game Pos Move) (maxDepth : Nat) (root : Pos) (depthArg : Nat)
    (fuel cnt : Nat) : List (SState Pos Move) × Option (SSSResult Move) :=
  let d0 := sss_init g maxDepth depthArg root
  sss_loop g maxDepth depthArg root d0 fuel
    (heap_push state_le d0 [] (sss_init g maxDepth depthArg root)) 1 cnt

/-- The observable result of `Searcher::sss`. -/
def sss (g : Game Pos Move) (maxDepth : Nat) (root : Pos) (depthArg : Nat)
    (fuel cnt : Nat) : Option (SSSResult Move) :=
  (sss_run g maxDepth root depthArg fuel cnt).2

end SSS

/-- The Stockman example: `StockmanMove` (src/games/stockman.rs). -/
inductive StockMove where
  | leftChild
  | rightChild
deriving DecidableEq, Repr

/-- The Stockman example game (src/games/stockman.rs): positions are node
indices of a complete binary tree; nodes above 15 have no moves; leaves
16..31 carry the fixed values, any other node evaluates to `i32::MAX`. -/
def stockman : Game Nat StockMove where
  legalMoves := fun p => if p > 15 then [] else [StockMove.leftChild, StockMove.rightChild]
  playMove := fun p mv =>
    match mv with
    | StockMove.leftChild => 2 * p
    | StockMove.rightChild => 2 * p + 1
  evaluate := fun p _ _ =>
    match p with
    | 16 => 30 | 17 => 54 | 18 => 21 | 19 => 73
    | 20 => 9 | 21 => 71 | 22 => 43 | 23 => 91
    | 24 => 28 | 25 => 94 | 26 => 78 | 27 => 52
    | 28 => 22 | 29 => 35 | 30 => 53 | 31 => 80
    | _ => 2147483647
  evalMin := -100
  evalMax := 100
  evalEps := 1

/-- A minimal one-ply contract-satisfying game used as a concrete probe:
position 0 is the root with the single move `step` to position 1, which has no
moves and evaluates (from the side to move there) to 5; the root evaluates to
0.  `EVAL_MINIMUM = -EVAL_MAXIMUM` holds and all leaf evaluations lie inside
the sentinels. -/
inductive OneMove where
  | step
deriving DecidableEq

/-- The one-ply game itself. -/
def oneply : Game Nat OneMove where
  legalMoves := fun p => if p = 0 then [OneMove.step] else []
  playMove := fun _ _ => 1
  evaluate := fun p _ _ => if p = 1 then 5 else 0
  evalMin := -100
  evalMax := 100
  evalEps := 1

/-- The PV round-trip evaluation (`eval_from_line`, src/main.rs:142-163):
play every `Some` move of the line in order, then evaluate the reached
position at the remaining depth, negating once per ply played. -/
def eval_from_line (g : Game Pos Move) (maxDepth : Nat) : Pos → PV Move → Nat → Int
  | p, [], k =>
    if k % 2 == 0 then g.evaluate p (maxDepth - k) maxDepth
    else -(g.evaluate p (maxDepth - k) maxDepth)
  | p, none :: rest, k => eval_from_line g maxDepth p rest k
  | p, some mv :: rest, k => eval_from_line g maxDepth (g.playMove p mv) rest (k + 1)

section SpecSide

variable {Pos Move : Type}

/-
  Definitions transcribed from the specification's wording (spec.md §4.5,
  §4.5.1 and §4.7.1), to be compared with the embeddings of the source.  They
  are deliberately phrased with `List.foldl`/`List.any` over the children
  rather than the source's iterator loops.
-/

/-- Spec §4.5.1 step, one remaining child of `f_alpha_beta`: recurse with
window `[-beta, -max(m, alpha)]`; a `.inr` value records the fail-high early
return at `m ≥ beta`.  The starting bound is `EVAL_MINIMUM`
("branch-and-bound-style fail-high behavior"). -/
def fab_spec_step (g : Game Pos Move) (alpha beta : Int)
    (recur : Pos → Int → Int → Int × PV Move) (pos : Pos) (idx : Nat) :
    ((Int × PV Move) ⊕ (Int × PV Move)) → Move → (Int × PV Move) ⊕ (Int × PV Move)
  | Sum.inr r, _ => Sum.inr r
  | Sum.inl (m, pv), mv =>
    let r := recur (g.playMove pos mv) (-beta) (-(max m alpha))
    let t := -r.1
    let line := setIdx r.2 idx (some mv)
    let m2 := if t > m then t else m
    let pv2 := if t > m then line else pv
    if m2 ≥ beta then Sum.inr (m2, line) else Sum.inl (m2, pv2)

/-- Spec §4.5.1: the null-window auxiliary, as described. -/
def f_alpha_beta_spec (g : Game Pos Move) (maxDepth : Nat) :
    Nat → Pos → Int → Int → Int × PV Move
  | 0, pos, _alpha, _beta => (g.evaluate pos 0 maxDepth, allNone Move maxDepth)
  | depth + 1, pos, alpha, beta =>
    match g.legalMoves pos with
    | [] => (g.evaluate pos (depth + 1) maxDepth, allNone Move maxDepth)
    | mv :: rest =>
      match (mv :: rest).foldl
        (fab_spec_step g alpha beta (f_alpha_beta_spec g maxDepth depth) pos
          (maxDepth - (depth + 1)))
        (Sum.inl (g.evalMin, allNone Move maxDepth)) with
      | Sum.inl r => r
      | Sum.inr r => r

/-- Spec §4.5 step, one subsequent child of refined alpha-beta: probe with the
null window `[-m - epsilon, -m]`; only if the probe exceeds `m` re-search with
the full window `[EVAL_MINIMUM, -probe_result]`, both through the null-window
variant (§4.5.1). -/
def pab_spec_step (g : Game Pos Move) (maxDepth dm1 idx : Nat) (pos : Pos)
    (acc : Int × PV Move) (mv : Move) : Int × PV Move :=
  let nextPos := g.playMove pos mv
  let t := -(f_alpha_beta_spec g maxDepth dm1 nextPos (-acc.1 - g.evalEps) (-acc.1)).1
  if t > acc.1 then
    let rr := f_alpha_beta_spec g maxDepth dm1 nextPos g.evalMin (-t)
    (-rr.1, setIdx rr.2 idx (some mv))
  else acc

/-- Spec §4.5: refined alpha-beta — full first child, then probe/conditional
re-search over the remaining children. -/
def p_alpha_beta_spec (g : Game Pos Move) (maxDepth : Nat) :
    Nat → Pos → Int × PV Move
  | 0, pos => (g.evaluate pos 0 maxDepth, allNone Move maxDepth)
  | depth + 1, pos =>
    match g.legalMoves pos with
    | [] => (g.evaluate pos (depth + 1) maxDepth, allNone Move maxDepth)
    | mv :: rest =>
      let r := p_alpha_beta_spec g maxDepth depth (g.playMove pos mv)
      rest.foldl (pab_spec_step g maxDepth depth (maxDepth - (depth + 1)) pos)
        (-r.1, setIdx r.2 (maxDepth - (depth + 1)) (some mv))

/-- Spec §4.7.1: the boolean feasibility test, as described — at a leaf
compare with `≥` or `>` according to the polarity, at an internal node
succeed iff some child's nested test (negated threshold, inverted polarity)
fails. -/
def test_spec (g : Game Pos Move) : Nat → Pos → Nat → Int → Bool → Bool
  | 0, pos, maxDepth, v, op =>
    if op then decide (g.evaluate pos 0 maxDepth ≥ v)
    else decide (g.evaluate pos 0 maxDepth > v)
  | depth + 1, pos, maxDepth, v, op =>
    match g.legalMoves pos with
    | [] =>
      if op then decide (g.evaluate pos (depth + 1) maxDepth ≥ v)
      else decide (g.evaluate pos (depth + 1) maxDepth > v)
    | mv :: rest =>
      (mv :: rest).any fun mv2 =>
        !(test_spec g depth (g.playMove pos mv2) maxDepth (-v) (!op))

end SpecSide

/-- The state invariant of the SSS* OPEN list when `sss` is entered with its
depth argument equal to `MAX_DEPTH`: a state at remaining depth `d` lies
`MAX_DEPTH - d` plies below the root, its line is a length-`MAX_DEPTH` array
whose first `MAX_DEPTH - d` slots replay (all `Some`) from the root exactly
to the state's node. -/
def StInv {Pos Move : Type} (g : Game Pos Move) (maxDepth : Nat) (root : Pos)
    (s : SState Pos Move) : Prop :=
  s.depth ≤ maxDepth ∧ s.line.length = maxDepth ∧
    replayTake g root s.line (maxDepth - s.depth) = some s.node

/-!  ## Theorems about the claims  -/

/-- Claim C1, evaluated at a failing input.  On the one-ply game (root 0 with
the single move `step` to the terminal position 1, whose evaluation for the
side to move there is 5), searched with `max_depth = 1` and the root calling
convention of src/main.rs, the five recursive entry points all return the
negamax value -5, but `sss` returns +5: its leaf branch sign-adjusts with the
parity of `MAX_DEPTH - depth` where `depth` is the argument of `sss` (which
equals `MAX_DEPTH` at the root call), not the popped node's depth, so the
leaf evaluation is never negated.  This refutes the claimed six-way
equality of the returned Eval. -/
theorem c1_sss_disagrees_on_one_ply_tree :
    branch_and_bound oneply 1 1 0 oneply.evalMax 0 = (-5, [some OneMove.step], 1) ∧
    alpha_beta oneply 1 1 0 oneply.evalMin oneply.evalMax 0 = (-5, [some OneMove.step], 1) ∧
    p_alpha_beta oneply 1 1 0 0 = (-5, [some OneMove.step], 1) ∧
    pvs oneply 1 1 0 oneply.evalMin oneply.evalMax 0 = (-5, [some OneMove.step], 1) ∧
    scout oneply 1 1 0 0 = (-5, [some OneMove.step], 1) ∧
    sss oneply 1 0 1 10 0 = some (SSSResult.ok 5 [some OneMove.step] 1) :=
  ⟨rfl, rfl, rfl, rfl, rfl, rfl⟩

/-- Claim C2: on the Stockman tree searched from node 1 at `max_depth = 4`
with the root calling conventions, all six algorithms return Eval 52 with
PV `[RightChild, LeftChild, RightChild, RightChild]`, and replaying that PV
from the root terminates at leaf node 27 whose raw evaluation is 52. -/
theorem c2_stockman_tree :
    branch_and_bound stockman 4 4 1 stockman.evalMax 0 =
      (52, [some StockMove.rightChild, some StockMove.leftChild,
            some StockMove.rightChild, some StockMove.rightChild], 15) ∧
    alpha_beta stockman 4 4 1 stockman.evalMin stockman.evalMax 0 =
      (52, [some StockMove.rightChild, some StockMove.leftChild,
            some StockMove.rightChild, some StockMove.rightChild], 13) ∧
    p_alpha_beta stockman 4 4 1 0 =
      (52, [some StockMove.rightChild, some StockMove.leftChild,
            some StockMove.rightChild, some StockMove.rightChild], 15) ∧
    pvs stockman 4 4 1 stockman.evalMin stockman.evalMax 0 =
      (52, [some StockMove.rightChild, some StockMove.leftChild,
            some StockMove.rightChild, some StockMove.rightChild], 25) ∧
    scout stockman 4 4 1 0 =
      (52, [some StockMove.rightChild, some StockMove.leftChild,
            some StockMove.rightChild, some StockMove.rightChild], 22) ∧
    sss stockman 4 1 4 64 0 =
      some (SSSResult.ok 52
        [some StockMove.rightChild, some StockMove.leftChild,
         some StockMove.rightChild, some StockMove.rightChild] 8) ∧
    replayTake stockman 1
      [some StockMove.rightChild, some StockMove.leftChild,
       some StockMove.rightChild, some StockMove.rightChild] 4 = some 27 ∧
    stockman.evaluate 27 0 4 = 52 :=
  ⟨rfl, rfl, rfl, rfl, rfl, rfl, rfl, rfl⟩

/-- Claim C4, evaluated at a failing input.  On the one-ply game, `sss`
(called with the root convention) returns value 5 with PV `[step]`, but
replaying that PV and applying the per-ply sign alternation (the round-trip
check `eval_from_line` of src/main.rs) yields -5, not the returned value. -/
theorem c4_pv_roundtrip_fails_for_sss :
    sss oneply 1 0 1 10 0 = some (SSSResult.ok 5 [some OneMove.step] 1) ∧
    eval_from_line oneply 1 0 [some OneMove.step] 0 = -5 :=
  ⟨rfl, rfl⟩

/-- Claim C7, refuted at a concrete input: two Live states over the one-ply
game share merit value 10, with insertion tags 1 and 2; popping the two-entry
OPEN heap returns the tag-2 entry — the one inserted later — first, contrary
to the claimed FIFO tie-break. -/
theorem c7_equal_merit_pop_is_not_fifo :
    heap_pop state_le (SState.live (0 : Nat) ((10 : Int), ([none] : PV OneMove)) 1 [none] 1)
      (heap_push state_le (SState.live (0 : Nat) ((10 : Int), ([none] : PV OneMove)) 1 [none] 1)
        (heap_push state_le (SState.live (0 : Nat) ((10 : Int), ([none] : PV OneMove)) 1 [none] 1)
          [] (SState.live (0 : Nat) ((10 : Int), ([none] : PV OneMove)) 1 [none] 1))
        (SState.live (0 : Nat) ((10 : Int), ([none] : PV OneMove)) 1 [none] 2)) =
      some (SState.live (0 : Nat) ((10 : Int), ([none] : PV OneMove)) 1 [none] 2,
        [SState.live (0 : Nat) ((10 : Int), ([none] : PV OneMove)) 1 [none] 1]) :=
  rfl

/-- Claim C7 as amended: of any two entries pushed into the OPEN heap, the one
with the larger merit value is popped first, and among entries with equal
merit value the one inserted later (larger insertion tag) is popped first —
LIFO, not FIFO, among equal merits. -/
theorem c7_pop_order_merit_then_lifo :
    ∀ {Pos Move : Type} (s t d0 : SState Pos Move),
      (s.merit.1 < t.merit.1 →
        heap_pop state_le d0 (heap_push state_le d0 (heap_push state_le d0 [] s) t) =
          some (t, [s])) ∧
      (t.merit.1 < s.merit.1 →
        heap_pop state_le d0 (heap_push state_le d0 (heap_push state_le d0 [] s) t) =
          some (s, [t])) ∧
      (s.merit.1 = t.merit.1 → s.iteration < t.iteration →
        heap_pop state_le d0 (heap_push state_le d0 (heap_push state_le d0 [] s) t) =
          some (t, [s])) ∧
      (s.merit.1 = t.merit.1 → t.iteration < s.iteration →
        heap_pop state_le d0 (heap_push state_le d0 (heap_push state_le d0 [] s) t) =
          some (s, [t])) := by
  intro Pos Move s t d0
  have hpush : ∀ u w : SState Pos Move,
      heap_push state_le d0 (heap_push state_le d0 [] u) w =
        if state_le w u then [u, w] else [w, u] := by
    intro u w
    cases h : state_le w u <;>
      simp [heap_push, sift_up, sift_up_aux, listGetD, setIdx, h]
  have hpop : ∀ u w : SState Pos Move,
      heap_pop state_le d0 [u, w] = some (u, [w]) := by
    intro u w
    simp [heap_pop, listGetD, setIdx, sift_down_to_bottom, sdtb_loop, sift_up_aux,
      List.dropLast]
  refine ⟨?_, ?_, ?_, ?_⟩
  · intro h
    have : state_le t s = false := by
      simp only [state_le, Bool.or_eq_false_iff, Bool.and_eq_false_iff,
        decide_eq_false_iff_not, not_lt]
      constructor
      · exact le_of_lt h
      · left
        exact ne_of_gt h
    rw [hpush, this]
    simp only [Bool.false_eq_true, if_false]
    exact hpop t s
  · intro h
    have : state_le t s = true := by
      simp only [state_le, Bool.or_eq_true, decide_eq_true_eq]
      exact Or.inl h
    rw [hpush, this, if_pos rfl]
    exact hpop s t
  · intro hm hi
    have : state_le t s = false := by
      simp only [state_le, Bool.or_eq_false_iff, Bool.and_eq_false_iff,
        decide_eq_false_iff_not, not_lt]
      refine ⟨le_of_eq hm, Or.inr ?_⟩
      omega
    rw [hpush, this]
    simp only [Bool.false_eq_true, if_false]
    exact hpop t s
  · intro hm hi
    have : state_le t s = true := by
      simp only [state_le, Bool.or_eq_true, Bool.and_eq_true, decide_eq_true_eq]
      exact Or.inr ⟨hm.symm, le_of_lt hi⟩
    rw [hpush, this, if_pos rfl]
    exact hpop s t

/-- Witness for the amended Claim C7 at concrete states: equal merits with
tags 3 and 7 pop the tag-7 state first. -/
theorem c7_pop_order_merit_then_lifo_witness :
    heap_pop state_le (SState.live (0 : Nat) ((10 : Int), ([none] : PV OneMove)) 1 [none] 3)
      (heap_push state_le (SState.live (0 : Nat) ((10 : Int), ([none] : PV OneMove)) 1 [none] 3)
        (heap_push state_le (SState.live (0 : Nat) ((10 : Int), ([none] : PV OneMove)) 1 [none] 3)
          [] (SState.live (0 : Nat) ((10 : Int), ([none] : PV OneMove)) 1 [none] 3))
        (SState.live (0 : Nat) ((10 : Int), ([none] : PV OneMove)) 1 [none] 7)) =
      some (SState.live (0 : Nat) ((10 : Int), ([none] : PV OneMove)) 1 [none] 7,
        [SState.live (0 : Nat) ((10 : Int), ([none] : PV OneMove)) 1 [none] 3]) :=
  ((c7_pop_order_merit_then_lifo
      (SState.live (0 : Nat) ((10 : Int), ([none] : PV OneMove)) 1 [none] 3)
      (SState.live (0 : Nat) ((10 : Int), ([none] : PV OneMove)) 1 [none] 7)
      (SState.live (0 : Nat) ((10 : Int), ([none] : PV OneMove)) 1 [none] 3)).2.2.1
    rfl (by decide))

/-- Claim C8, evaluated at a failing input.  In the `sss` run on the one-ply
game, the Live leaf (node 1, depth 0, inherited merit 100) is popped and the
Solved entry pushed for it carries merit value +5 — the raw evaluation — as
the third popped state shows; the node's negamax parity (`max_depth - depth`
odd) calls for the sign-adjusted evaluation -5, so the claimed merit,
`min(inherited, adjusted) = min(100, -5)`, is -5, not 5.  The code computes
the parity from the constant root `depth` argument instead of the node's
depth. -/
theorem c8_leaf_merit_not_parity_adjusted :
    (sss_run oneply 1 0 1 10 0).1 =
      [SState.live 0 (100, [none]) 1 [none] 0,
       SState.live 1 (100, [none]) 0 [some OneMove.step] 1,
       SState.solved 1 (5, [some OneMove.step]) 0 [some OneMove.step] 2,
       SState.solved 0 (5, [some OneMove.step]) 1 [some OneMove.step] 3] ∧
    min oneply.evalMax (-(oneply.evaluate 1 0 1)) = -5 :=
  ⟨rfl, rfl⟩

/-- Loop lemma for Claim C6: the source's early-exit iteration over the
children computes `List.any` of the negated nested tests, for any recursive
callee whose boolean result is count-independent. -/
theorem test_go_eq_any {Pos Move : Type} (g : Game Pos Move)
    (recur : Pos → Int → Bool → Nat → Bool × Nat) (rspec : Pos → Int → Bool → Bool)
    (hr : ∀ p v2 op2 c, (recur p v2 op2 c).1 = rspec p v2 op2) :
    ∀ (rest : List Move) (mv : Move) (pos : Pos) (v : Int) (op : Bool) (cnt : Nat),
      (test_go g recur pos v op mv rest cnt).1 =
        (mv :: rest).any (fun mv2 => !(rspec (g.playMove pos mv2) (-v) (!op))) := by
  intro rest
  induction rest with
  | nil =>
    intro mv pos v op cnt
    simp only [test_go, List.any_cons, List.any_nil, Bool.or_false, hr]
    cases rspec (g.playMove pos mv) (-v) (!op) <;> simp
  | cons mv2 rest2 ih =>
    intro mv pos v op cnt
    simp only [test_go, List.any_cons, hr]
    cases hh : rspec (g.playMove pos mv) (-v) (!op) with
    | false => simp [hh]
    | true =>
      have h2 := ih mv2 pos v op (recur (g.playMove pos mv) (-v) (!op) cnt).2
      simp only [List.any_cons] at h2
      simpa [hh] using h2

/-- Claim C6: the boolean result of `Searcher::test` coincides with the
specification's description of the feasibility test — at a leaf (depth 0 or
no legal moves) it compares the evaluation with the threshold using `≥` when
`op` and `>` otherwise; at an internal node it tries each child with
threshold `-v` and polarity `!op` and succeeds exactly when some child's
nested test fails. -/
theorem c6_feasibility_test_matches_spec :
    ∀ {Pos Move : Type} (g : Game Pos Move) (depth : Nat) (pos : Pos)
      (maxDepth : Nat) (v : Int) (op : Bool) (cnt : Nat),
      (test g depth pos maxDepth v op cnt).1 = test_spec g depth pos maxDepth v op := by
  intro Pos Move g depth
  induction depth with
  | zero => intro pos maxDepth v op cnt; rfl
  | succ d ih =>
    intro pos maxDepth v op cnt
    simp only [test, test_spec]
    cases h : g.legalMoves pos with
    | nil => simp [h]
    | cons mv rest =>
      simp only [h]
      exact test_go_eq_any g _ _ (fun p v2 op2 c => ih p maxDepth v2 op2 c) rest mv pos v op cnt

/-- Once the spec-side fold for `f_alpha_beta` has failed high (`Sum.inr`),
it stays failed high. -/
theorem fab_foldl_inr {Pos Move : Type} (g : Game Pos Move) (alpha beta : Int)
    (recur : Pos → Int → Int → Int × PV Move) (pos : Pos) (idx : Nat) (r : Int × PV Move) :
    ∀ l : List Move,
      l.foldl (fab_spec_step g alpha beta recur pos idx) (Sum.inr r) = Sum.inr r := by
  intro l
  induction l with
  | nil => rfl
  | cons mv rest ih => simpa [fab_spec_step] using ih

/-- Loop lemma for Claim C5: the source's `f_alpha_beta` move loop agrees
with the spec-side early-exit fold, assuming the recursive callees agree. -/
theorem fab_go_eq_foldl {Pos Move : Type} (g : Game Pos Move) (maxD d : Nat)
    (alpha beta : Int) (pos : Pos) (idx : Nat)
    (ih : ∀ p a2 b2 c,
      ((f_alpha_beta g maxD d p a2 b2 c).1, (f_alpha_beta g maxD d p a2 b2 c).2.1) =
        f_alpha_beta_spec g maxD d p a2 b2) :
    ∀ (rest : List Move) (mv : Move) (m : Int) (pv : PV Move) (cnt : Nat),
      ((fab_go g alpha beta (f_alpha_beta g maxD d) pos idx mv rest m pv cnt).1,
        (fab_go g alpha beta (f_alpha_beta g maxD d) pos idx mv rest m pv cnt).2.1) =
      (match (mv :: rest).foldl
          (fab_spec_step g alpha beta (f_alpha_beta_spec g maxD d) pos idx)
          (Sum.inl (m, pv)) with
        | Sum.inl r => r
        | Sum.inr r => r) := by
  intro rest
  induction rest with
  | nil =>
    intro mv m pv cnt
    have hpair := ih (g.playMove pos mv) (-beta) (-(max m alpha)) cnt
    simp only [fab_go, List.foldl_cons, List.foldl_nil, fab_spec_step, ← hpair]
    by_cases ht : -(f_alpha_beta g maxD d (g.playMove pos mv) (-beta) (-(max m alpha)) cnt).1 > m
    · simp only [if_pos ht]
      by_cases hb : -(f_alpha_beta g maxD d (g.playMove pos mv) (-beta) (-(max m alpha)) cnt).1 ≥ beta
      · simp only [if_pos hb]
      · simp only [if_neg hb]
    · simp only [if_neg ht]
      by_cases hb : m ≥ beta
      · simp only [if_pos hb]
      · simp only [if_neg hb]
  | cons mv2 rest2 ihr =>
    intro mv m pv cnt
    have hpair := ih (g.playMove pos mv) (-beta) (-(max m alpha)) cnt
    simp only [fab_go, List.foldl_cons, fab_spec_step, ← hpair]
    by_cases ht : -(f_alpha_beta g maxD d (g.playMove pos mv) (-beta) (-(max m alpha)) cnt).1 > m
    · simp only [if_pos ht]
      by_cases hb : -(f_alpha_beta g maxD d (g.playMove pos mv) (-beta) (-(max m alpha)) cnt).1 ≥ beta
      · simp only [if_pos hb, fab_spec_step, fab_foldl_inr]
      · simp only [if_neg hb]
        have h2 := ihr mv2
          (-(f_alpha_beta g maxD d (g.playMove pos mv) (-beta) (-(max m alpha)) cnt).1)
          (setIdx (f_alpha_beta g maxD d (g.playMove pos mv) (-beta) (-(max m alpha)) cnt).2.1
            idx (some mv))
          (f_alpha_beta g maxD d (g.playMove pos mv) (-beta) (-(max m alpha)) cnt).2.2
        simp only [List.foldl_cons, fab_spec_step] at h2
        exact h2
    · simp only [if_neg ht]
      by_cases hb : m ≥ beta
      · simp only [if_pos hb, fab_spec_step, fab_foldl_inr]
      · simp only [if_neg hb]
        have h2 := ihr mv2 m pv
          (f_alpha_beta g maxD d (g.playMove pos mv) (-beta) (-(max m alpha)) cnt).2.2
        simp only [List.foldl_cons, fab_spec_step] at h2
        exact h2

/-- Claim C5, `f_alpha_beta` half, as a standalone induction. -/
theorem f_alpha_beta_eq_spec {Pos Move : Type} (g : Game Pos Move) (maxD : Nat) :
    ∀ (depth : Nat) (pos : Pos) (alpha beta : Int) (cnt : Nat),
      ((f_alpha_beta g maxD depth pos alpha beta cnt).1,
        (f_alpha_beta g maxD depth pos alpha beta cnt).2.1) =
        f_alpha_beta_spec g maxD depth pos alpha beta := by
  intro depth
  induction depth with
  | zero => intro pos alpha beta cnt; rfl
  | succ d ih =>
    intro pos alpha beta cnt
    simp only [f_alpha_beta, f_alpha_beta_spec]
    cases h : g.legalMoves pos with
    | nil => simp [h]
    | cons mv rest =>
      simp only [h]
      exact fab_go_eq_foldl g maxD d alpha beta pos (maxD - (d + 1)) ih rest mv
        g.evalMin (allNone Move maxD) cnt

/-- Loop lemma for Claim C5: the probe/re-search loop of `p_alpha_beta`
agrees with the spec-side fold. -/
theorem pab_loop_eq_foldl {Pos Move : Type} (g : Game Pos Move) (maxD dm1 idx : Nat)
    (pos : Pos) :
    ∀ (rest : List Move) (m : Int) (pv : PV Move) (cnt : Nat),
      ((pab_loop g maxD dm1 idx pos rest m pv cnt).1,
        (pab_loop g maxD dm1 idx pos rest m pv cnt).2.1) =
      rest.foldl (pab_spec_step g maxD dm1 idx pos) (m, pv) := by
  intro rest
  induction rest with
  | nil => intro m pv cnt; rfl
  | cons mv rest2 ih =>
    intro m pv cnt
    simp only [pab_loop, List.foldl_cons, pab_spec_step,
      ← f_alpha_beta_eq_spec g maxD dm1 (g.playMove pos mv) (-m - g.evalEps) (-m) cnt]
    by_cases ht :
        -(f_alpha_beta g maxD dm1 (g.playMove pos mv) (-m - g.evalEps) (-m) cnt).1 > m
    · simp only [if_pos ht,
        ← f_alpha_beta_eq_spec g maxD dm1 (g.playMove pos mv) g.evalMin
          (-(-(f_alpha_beta g maxD dm1 (g.playMove pos mv) (-m - g.evalEps) (-m) cnt).1))
          (f_alpha_beta g maxD dm1 (g.playMove pos mv) (-m - g.evalEps) (-m) cnt).2.2]
      exact ih _ _ _
    · simp only [if_neg ht]
      exact ih _ _ _

/-- Claim C5: at an internal node `p_alpha_beta` searches the first child
with a full recursive call establishing `m`, then folds over the remaining
children, probing each with `f_alpha_beta` on the null window
`[-m - EVAL_EPSILON, -m]` and, only when the probe exceeds `m`, re-searching
it with `f_alpha_beta` on `[EVAL_MINIMUM, -probe_result]`; and `f_alpha_beta`
has the recursive shape of `alpha_beta` (with branch-and-bound start
`EVAL_MINIMUM`) whose child calls receive the window
`[-beta, -max(m, alpha)]`.  Both are stated as agreement of the source
embedding with the spec-side definitions `p_alpha_beta_spec` and
`f_alpha_beta_spec`, which transcribe exactly that description. -/
theorem c5_refined_alpha_beta_matches_spec :
    ∀ {Pos Move : Type} (g : Game Pos Move) (maxDepth depth : Nat) (pos : Pos)
      (alpha beta : Int) (cnt : Nat),
      ((p_alpha_beta g maxDepth depth pos cnt).1,
        (p_alpha_beta g maxDepth depth pos cnt).2.1) =
          p_alpha_beta_spec g maxDepth depth pos ∧
      ((f_alpha_beta g maxDepth depth pos alpha beta cnt).1,
        (f_alpha_beta g maxDepth depth pos alpha beta cnt).2.1) =
        f_alpha_beta_spec g maxDepth depth pos alpha beta := by
  intro Pos Move g maxDepth depth pos alpha beta cnt
  refine ⟨?_, f_alpha_beta_eq_spec g maxDepth depth pos alpha beta cnt⟩
  induction depth generalizing pos cnt with
  | zero => rfl
  | succ d ih =>
    simp only [p_alpha_beta, p_alpha_beta_spec]
    cases h : g.legalMoves pos with
    | nil => simp [h]
    | cons mv rest =>
      simp only [h, ← ih (g.playMove pos mv) cnt]
      exact pab_loop_eq_foldl g maxDepth d (maxDepth - (d + 1)) pos rest _ _ _

/-- Pushing onto an empty heap yields the singleton heap. -/
theorem heap_push_nil {α : Type} (le : α → α → Bool) (d0 x : α) :
    heap_push le d0 [] x = [x] := rfl

/-- Popping a singleton heap yields its element and the empty heap. -/
theorem heap_pop_single {α : Type} (le : α → α → Bool) (d0 x : α) :
    heap_pop le d0 [x] = some (x, []) := rfl

/-- Claim C3: with depth 0, or on a position with no legal moves, each search
entry point returns `(evaluate(pos, depth, MAX_DEPTH), all-None PV)` and
increments the leaf counter by exactly one.  For `sss` the depth argument
equals the PV length at the root call, so the depth-0 statement is at
`MAX_DEPTH = 0`, and the no-move statement is at depth `MAX_DEPTH`; both
assume the contract bound `evaluate ≤ EVAL_MAXIMUM` (the Solved merit is the
minimum of the inherited `EVAL_MAXIMUM` and the evaluation). -/
theorem c3_boundary :
    ∀ {Pos Move : Type} [DecidableEq Pos] [DecidableEq Move]
      (g : Game Pos Move) (maxDepth depth : Nat) (pos : Pos)
      (bound alpha beta : Int) (cnt fuel : Nat),
      branch_and_bound g maxDepth 0 pos bound cnt =
        (g.evaluate pos 0 maxDepth, allNone Move maxDepth, cnt + 1) ∧
      (g.legalMoves pos = [] →
        branch_and_bound g maxDepth depth pos bound cnt =
          (g.evaluate pos depth maxDepth, allNone Move maxDepth, cnt + 1)) ∧
      alpha_beta g maxDepth 0 pos alpha beta cnt =
        (g.evaluate pos 0 maxDepth, allNone Move maxDepth, cnt + 1) ∧
      (g.legalMoves pos = [] →
        alpha_beta g maxDepth depth pos alpha beta cnt =
          (g.evaluate pos depth maxDepth, allNone Move maxDepth, cnt + 1)) ∧
      p_alpha_beta g maxDepth 0 pos cnt =
        (g.evaluate pos 0 maxDepth, allNone Move maxDepth, cnt + 1) ∧
      (g.legalMoves pos = [] →
        p_alpha_beta g maxDepth depth pos cnt =
          (g.evaluate pos depth maxDepth, allNone Move maxDepth, cnt + 1)) ∧
      pvs g maxDepth 0 pos alpha beta cnt =
        (g.evaluate pos 0 maxDepth, allNone Move maxDepth, cnt + 1) ∧
      (g.legalMoves pos = [] →
        pvs g maxDepth depth pos alpha beta cnt =
          (g.evaluate pos depth maxDepth, allNone Move maxDepth, cnt + 1)) ∧
      scout g maxDepth 0 pos cnt =
        (g.evaluate pos 0 maxDepth, allNone Move maxDepth, cnt + 1) ∧
      (g.legalMoves pos = [] →
        scout g maxDepth depth pos cnt =
          (g.evaluate pos depth maxDepth, allNone Move maxDepth, cnt + 1)) ∧
      (g.evaluate pos 0 0 ≤ g.evalMax →
        sss g 0 pos 0 (fuel + 2) cnt =
          some (SSSResult.ok (g.evaluate pos 0 0) (allNone Move 0) (cnt + 1))) ∧
      (g.legalMoves pos = [] → g.evaluate pos maxDepth maxDepth ≤ g.evalMax →
        sss g maxDepth pos maxDepth (fuel + 2) cnt =
          some (SSSResult.ok (g.evaluate pos maxDepth maxDepth) (allNone Move maxDepth)
            (cnt + 1))) := by
  intro Pos Move instP instM g maxDepth depth pos bound alpha beta cnt fuel
  refine ⟨rfl, ?_, rfl, ?_, rfl, ?_, rfl, ?_, rfl, ?_, ?_, ?_⟩
  · intro h
    cases depth with
    | zero => rfl
    | succ d => simp [branch_and_bound, h]
  · intro h
    cases depth with
    | zero => rfl
    | succ d => simp [alpha_beta, h]
  · intro h
    cases depth with
    | zero => rfl
    | succ d => simp [p_alpha_beta, h]
  · intro h
    cases depth with
    | zero => rfl
    | succ d => simp [pvs, h]
  · intro h
    cases depth with
    | zero => rfl
    | succ d => simp [scout, h]
  · intro hle
    simp only [sss, sss_run, sss_init, heap_push_nil, sss_loop, heap_pop_single,
      Nat.sub_self, Nat.zero_mod, beq_self_eq_true, if_pos, allNone]
    rw [if_neg (not_lt.mpr hle)]
  · intro h hle
    cases maxDepth with
    | zero =>
      simp only [sss, sss_run, sss_init, heap_push_nil, sss_loop, heap_pop_single,
        Nat.sub_self, Nat.zero_mod, beq_self_eq_true, if_pos, allNone]
      rw [if_neg (not_lt.mpr hle)]
    | succ md =>
      simp only [sss, sss_run, sss_init, heap_push_nil, sss_loop, heap_pop_single,
        Nat.sub_self, Nat.zero_mod, beq_self_eq_true, if_pos, allNone, h]
      rw [if_neg (not_lt.mpr hle)]
      simp [sss_loop, heap_pop_single, heap_push_nil]

/-- Witness for Claim C3 at the one-ply game: position 1 has no legal moves
and evaluates to 5; all hypotheses are discharged at this concrete input. -/
theorem c3_boundary_witness :
    branch_and_bound oneply 1 0 1 100 0 = (oneply.evaluate 1 0 1, allNone OneMove 1, 1) ∧
    branch_and_bound oneply 1 1 1 100 0 = (oneply.evaluate 1 1 1, allNone OneMove 1, 1) ∧
    alpha_beta oneply 1 0 1 (-100) 100 0 = (oneply.evaluate 1 0 1, allNone OneMove 1, 1) ∧
    alpha_beta oneply 1 1 1 (-100) 100 0 = (oneply.evaluate 1 1 1, allNone OneMove 1, 1) ∧
    p_alpha_beta oneply 1 0 1 0 = (oneply.evaluate 1 0 1, allNone OneMove 1, 1) ∧
    p_alpha_beta oneply 1 1 1 0 = (oneply.evaluate 1 1 1, allNone OneMove 1, 1) ∧
    pvs oneply 1 0 1 (-100) 100 0 = (oneply.evaluate 1 0 1, allNone OneMove 1, 1) ∧
    pvs oneply 1 1 1 (-100) 100 0 = (oneply.evaluate 1 1 1, allNone OneMove 1, 1) ∧
    scout oneply 1 0 1 0 = (oneply.evaluate 1 0 1, allNone OneMove 1, 1) ∧
    scout oneply 1 1 1 0 = (oneply.evaluate 1 1 1, allNone OneMove 1, 1) ∧
    sss oneply 0 1 0 2 0 = some (SSSResult.ok (oneply.evaluate 1 0 0) (allNone OneMove 0) 1) ∧
    sss oneply 1 1 1 2 0 = some (SSSResult.ok (oneply.evaluate 1 1 1) (allNone OneMove 1) 1) := by
  have h := c3_boundary oneply 1 1 1 100 (-100) 100 0 0
  exact ⟨h.1, h.2.1 rfl, h.2.2.1, h.2.2.2.1 rfl, h.2.2.2.2.1, h.2.2.2.2.2.1 rfl,
    h.2.2.2.2.2.2.1, h.2.2.2.2.2.2.2.1 rfl, h.2.2.2.2.2.2.2.2.1,
    h.2.2.2.2.2.2.2.2.2.1 rfl, h.2.2.2.2.2.2.2.2.2.2.1 (by decide),
    h.2.2.2.2.2.2.2.2.2.2.2 rfl (by decide)⟩

/-- Prepending preserves a known last element. -/
theorem getLast_cons_of_getLast {α : Type} (a : α) (l : List α) (x : α)
    (h : l.getLast? = some x) : (a :: l).getLast? = some x := by
  cases l with
  | nil => simp at h
  | cons b t => rw [List.getLast?_cons_cons]; exact h

/-- If the SSS* loop returns a value, the last popped state was a Solved
entry at depth `MAX_DEPTH` carrying exactly the returned merit. -/
theorem sss_loop_ok_getLast {Pos Move : Type} [DecidableEq Pos] [DecidableEq Move]
    (g : Game Pos Move) (maxDepth depthArg : Nat) (root : Pos) (d0 : SState Pos Move) :
    ∀ (fuel : Nat) (heap : List (SState Pos Move)) (i cnt : Nat) (v : Int)
      (pv : PV Move) (c : Nat),
      (sss_loop g maxDepth depthArg root d0 fuel heap i cnt).2 =
        some (SSSResult.ok v pv c) →
      ∃ n2 l2 it2,
        (sss_loop g maxDepth depthArg root d0 fuel heap i cnt).1.getLast? =
          some (SState.solved n2 (v, pv) maxDepth l2 it2) := by
  intro fuel
  induction fuel with
  | zero => intro heap i cnt v pv c h; simp [sss_loop] at h
  | succ f ih =>
    intro heap i cnt v pv c h
    rw [sss_loop] at h ⊢
    cases hp : heap_pop state_le d0 heap with
    | none => rw [hp] at h; simp at h
    | some popped =>
      obtain ⟨st, rest⟩ := popped
      rw [hp] at h
      cases st with
      | solved n mer d l it =>
        obtain ⟨hm, pvm⟩ := mer
        by_cases hd : (d == maxDepth) = true
        · simp only [if_pos hd, Option.some_inj] at h
          obtain ⟨hv, hpv, _⟩ := SSSResult.ok.inj h
          have hdeq : d = maxDepth := by simpa using hd
          refine ⟨n, l, it, ?_⟩
          simp [hdeq, hv, hpv]
        · simp only [if_neg hd] at h ⊢
          cases hr : replayTake g root l (maxDepth - d - 1) with
          | none => rw [hr] at h; simp at h
          | some parent =>
            rw [hr] at h
            by_cases hmp :
                ((SState.solved n (hm, pvm) d l it).is_max_player maxDepth) = true
            · simp only [if_pos hmp] at h ⊢
              cases hs : next_sibling g parent n with
              | some nextMove =>
                rw [hs] at h
                obtain ⟨n2, l2, it2, hlast⟩ := ih _ _ _ _ _ _ h
                exact ⟨n2, l2, it2, getLast_cons_of_getLast _ _ _ hlast⟩
              | none =>
                rw [hs] at h
                obtain ⟨n2, l2, it2, hlast⟩ := ih _ _ _ _ _ _ h
                exact ⟨n2, l2, it2, getLast_cons_of_getLast _ _ _ hlast⟩
            · simp only [if_neg hmp] at h ⊢
              obtain ⟨n2, l2, it2, hlast⟩ := ih _ _ _ _ _ _ h
              exact ⟨n2, l2, it2, getLast_cons_of_getLast _ _ _ hlast⟩
      | live n mer d l it =>
        obtain ⟨hm, pvm⟩ := mer
        by_cases hd : (d == 0) = true
        · simp only [if_pos hd] at h ⊢
          obtain ⟨n2, l2, it2, hlast⟩ := ih _ _ _ _ _ _ h
          exact ⟨n2, l2, it2, getLast_cons_of_getLast _ _ _ hlast⟩
        · simp only [if_neg hd] at h ⊢
          cases hlm : g.legalMoves n with
          | nil =>
            rw [hlm] at h
            obtain ⟨n2, l2, it2, hlast⟩ := ih _ _ _ _ _ _ h
            exact ⟨n2, l2, it2, getLast_cons_of_getLast _ _ _ hlast⟩
          | cons mv restMoves =>
            rw [hlm] at h
            by_cases hmp :
                ((SState.live n (hm, pvm) d l it).is_max_player maxDepth) = true
            · simp only [if_pos hmp] at h ⊢
              obtain ⟨n2, l2, it2, hlast⟩ := ih _ _ _ _ _ _ h
              exact ⟨n2, l2, it2, getLast_cons_of_getLast _ _ _ hlast⟩
            · simp only [if_neg hmp] at h ⊢
              obtain ⟨n2, l2, it2, hlast⟩ := ih _ _ _ _ _ _ h
              exact ⟨n2, l2, it2, getLast_cons_of_getLast _ _ _ hlast⟩

/-- Claim C9: the SSS* loop returns a value exactly through popping a Solved
entry whose depth equals `MAX_DEPTH` — popping such an entry returns its
merit immediately, any returned value was produced by such a final pop, and
if the OPEN list empties the loop aborts with the
`State space operator is faulty` panic instead of returning a value. -/
theorem c9_sss_returns_only_root_solved :
    ∀ {Pos Move : Type} [DecidableEq Pos] [DecidableEq Move] (g : Game Pos Move)
      (maxDepth depthArg : Nat) (root : Pos) (d0 : SState Pos Move) (fuel : Nat)
      (heapE heapS heap : List (SState Pos Move)) (i cnt : Nat) (v : Int)
      (pv : PV Move) (c : Nat) (n : Pos) (l : PV Move) (it : Nat)
      (rest : List (SState Pos Move)),
      (heap_pop state_le d0 heapE = none →
        (sss_loop g maxDepth depthArg root d0 (fuel + 1) heapE i cnt).2 =
          some SSSResult.stateSpacePanic) ∧
      (heap_pop state_le d0 heapS = some (SState.solved n (v, pv) maxDepth l it, rest) →
        (sss_loop g maxDepth depthArg root d0 (fuel + 1) heapS i cnt).2 =
          some (SSSResult.ok v pv cnt)) ∧
      ((sss_loop g maxDepth depthArg root d0 fuel heap i cnt).2 =
          some (SSSResult.ok v pv c) →
        ∃ n2 l2 it2,
          (sss_loop g maxDepth depthArg root d0 fuel heap i cnt).1.getLast? =
            some (SState.solved n2 (v, pv) maxDepth l2 it2)) := by
  intro Pos Move instP instM g maxDepth depthArg root d0 fuel heapE heapS heap i cnt
    v pv c n l it rest
  refine ⟨?_, ?_, fun h => sss_loop_ok_getLast g maxDepth depthArg root d0 fuel heap
    i cnt v pv c h⟩
  · intro hp
    rw [sss_loop, hp]
  · intro hp
    rw [sss_loop, hp]
    simp

/-- Witness for Claim C9 on the one-ply game: an empty OPEN list panics, a
Solved root entry at depth `MAX_DEPTH = 1` returns its merit immediately,
and the full run's returned value traces back to its final Solved pop. -/
theorem c9_sss_returns_only_root_solved_witness :
    ((sss_loop oneply 1 1 0 (sss_init oneply 1 1 0) 11 [] 1 0).2 =
      some SSSResult.stateSpacePanic) ∧
    ((sss_loop oneply 1 1 0 (sss_init oneply 1 1 0) 11
        [SState.solved 0 (5, [some OneMove.step]) 1 [some OneMove.step] 3] 1 0).2 =
      some (SSSResult.ok 5 [some OneMove.step] 0)) ∧
    (∃ n2 l2 it2,
      (sss_loop oneply 1 1 0 (sss_init oneply 1 1 0) 10 [sss_init oneply 1 1 0] 1 0).1.getLast? =
        some (SState.solved n2 ((5 : Int), [some OneMove.step]) 1 l2 it2)) := by
  have h := c9_sss_returns_only_root_solved oneply 1 1 0 (sss_init oneply 1 1 0) 10
    [] [SState.solved 0 (5, [some OneMove.step]) 1 [some OneMove.step] 3]
    [sss_init oneply 1 1 0] 1 0 5 [some OneMove.step] 1 0 [some OneMove.step] 3 []
  exact ⟨h.1 rfl, h.2.1 rfl, h.2.2 rfl⟩

section HeapMem

/-
  Membership lemmas for the heap model: every operation only permutes,
  removes, inserts the pushed element, or (in the nominally unreachable
  out-of-range reads) introduces the default `d0`.  They let per-element
  invariants flow through the SSS* loop.
-/

variable {α : Type} (le : α → α → Bool) (d0 : α)

theorem list_mem_ite {x : α} {c : Prop} [Decidable c] {a b : List α}
    (h : x ∈ (if c then a else b)) : x ∈ a ∨ x ∈ b := by
  split at h
  · exact Or.inl h
  · exact Or.inr h

theorem mem_setIdx (x y : α) :
    ∀ (l : List α) (i : Nat), x ∈ setIdx l i y → x ∈ l ∨ x = y := by
  intro l
  induction l with
  | nil => intro i h; simp [setIdx] at h
  | cons a t ih =>
    intro i h
    cases i with
    | zero =>
      simp only [setIdx, List.mem_cons] at h
      rcases h with h | h
      · exact Or.inr h
      · exact Or.inl (List.mem_cons_of_mem _ h)
    | succ j =>
      simp only [setIdx, List.mem_cons] at h
      rcases h with h | h
      · exact Or.inl (h ▸ List.mem_cons_self _ _)
      · rcases ih j h with h2 | h2
        · exact Or.inl (List.mem_cons_of_mem _ h2)
        · exact Or.inr h2

theorem listGetD_mem_or :
    ∀ (l : List α) (i : Nat), listGetD l i d0 ∈ l ∨ listGetD l i d0 = d0 := by
  intro l
  induction l with
  | nil => intro i; exact Or.inr rfl
  | cons a t ih =>
    intro i
    cases i with
    | zero => exact Or.inl (List.mem_cons_self _ _)
    | succ j =>
      rcases ih j with h | h
      · exact Or.inl (List.mem_cons_of_mem _ h)
      · exact Or.inr h

theorem mem_sift_up_aux (x : α) :
    ∀ (fuel : Nat) (data : List α) (start pos : Nat) (y : α),
      x ∈ sift_up_aux le d0 fuel data start pos y → x ∈ data ∨ x = y ∨ x = d0 := by
  intro fuel
  induction fuel with
  | zero =>
    intro data start pos y h
    simp only [sift_up_aux] at h
    rcases mem_setIdx x y data pos h with h2 | h2
    · exact Or.inl h2
    · exact Or.inr (Or.inl h2)
  | succ f ih =>
    intro data start pos y h
    simp only [sift_up_aux] at h
    split at h
    · rcases mem_setIdx x y data pos h with h2 | h2
      · exact Or.inl h2
      · exact Or.inr (Or.inl h2)
    · split at h
      · rcases mem_setIdx x y data pos h with h2 | h2
        · exact Or.inl h2
        · exact Or.inr (Or.inl h2)
      · rcases ih _ _ _ _ h with h2 | h2 | h2
        · rcases mem_setIdx x _ data pos h2 with h3 | h3
          · exact Or.inl h3
          · rcases listGetD_mem_or d0 data ((pos - 1) / 2) with h4 | h4
            · exact Or.inl (h3 ▸ h4)
            · exact Or.inr (Or.inr (h3.trans h4))
        · exact Or.inr (Or.inl h2)
        · exact Or.inr (Or.inr h2)

theorem mem_heap_push (x y : α) (data : List α) :
    x ∈ heap_push le d0 data y → x ∈ data ∨ x = y ∨ x = d0 := by
  intro h
  simp only [heap_push, sift_up] at h
  rcases mem_sift_up_aux le d0 x _ _ _ _ _ h with h2 | h2 | h2
  · rcases List.mem_append.mp h2 with h3 | h3
    · exact Or.inl h3
    · exact Or.inr (Or.inl (List.mem_singleton.mp h3))
  · rcases listGetD_mem_or d0 (data ++ [y]) data.length with h3 | h3
    · rcases List.mem_append.mp (h2 ▸ h3) with h4 | h4
      · exact Or.inl h4
      · exact Or.inr (Or.inl (List.mem_singleton.mp h4))
    · exact Or.inr (Or.inr (h2.trans h3))
  · exact Or.inr (Or.inr h2)

theorem mem_sdtb_loop (x : α) (endd : Nat) :
    ∀ (fuel : Nat) (data : List α) (pos : Nat),
      x ∈ (sdtb_loop le d0 endd fuel data pos).1 → x ∈ data ∨ x = d0 := by
  intro fuel
  induction fuel with
  | zero => intro data pos h; exact Or.inl h
  | succ f ih =>
    intro data pos h
    simp only [sdtb_loop] at h
    split at h
    · rcases ih _ _ h with h2 | h2
      · rcases mem_setIdx x _ data pos h2 with h3 | h3
        · exact Or.inl h3
        · rcases listGetD_mem_or d0 data _ with h4 | h4
          · exact Or.inl (h3 ▸ h4)
          · exact Or.inr (h3.trans h4)
      · exact Or.inr h2
    · split at h
      · rcases mem_setIdx x _ data pos h with h3 | h3
        · exact Or.inl h3
        · rcases listGetD_mem_or d0 data _ with h4 | h4
          · exact Or.inl (h3 ▸ h4)
          · exact Or.inr (h3.trans h4)
      · exact Or.inl h

theorem mem_sift_down_to_bottom (x : α) (data : List α) (pos : Nat) :
    x ∈ sift_down_to_bottom le d0 data pos → x ∈ data ∨ x = d0 := by
  intro h
  simp only [sift_down_to_bottom] at h
  rcases mem_sift_up_aux le d0 x _ _ _ _ _ h with h2 | h2 | h2
  · exact mem_sdtb_loop le d0 x _ _ _ _ h2
  · rcases listGetD_mem_or d0 data pos with h3 | h3
    · exact Or.inl (h2 ▸ h3)
    · exact Or.inr (h2.trans h3)
  · exact Or.inr h2

theorem mem_of_mem_dropLast (x : α) :
    ∀ l : List α, x ∈ l.dropLast → x ∈ l := by
  intro l h
  exact (List.dropLast_prefix l).subset h

theorem mem_heap_pop (x p : α) (data rest : List α)
    (hp : heap_pop le d0 data = some (p, rest)) :
    (p ∈ data ∨ p = d0) ∧ (x ∈ rest → x ∈ data ∨ x = d0) := by
  cases data with
  | nil => simp [heap_pop] at hp
  | cons a t =>
    simp only [heap_pop] at hp
    cases hdl : (a :: t).dropLast with
    | nil =>
      rw [hdl] at hp
      simp only [Option.some_inj, Prod.mk.injEq] at hp
      obtain ⟨hp1, hp2⟩ := hp
      constructor
      · rcases listGetD_mem_or d0 (a :: t) ((a :: t).length - 1) with h2 | h2
        · exact Or.inl (hp1 ▸ h2)
        · exact Or.inr (hp1 ▸ h2)
      · intro hx
        rw [← hp2] at hx
        simp at hx
    | cons b u =>
      rw [hdl] at hp
      simp only [Option.some_inj, Prod.mk.injEq] at hp
      obtain ⟨hp1, hp2⟩ := hp
      have hsub : ∀ z : α, z ∈ b :: u → z ∈ a :: t := by
        intro z hz
        exact mem_of_mem_dropLast z (a :: t) (hdl ▸ hz)
      constructor
      · rcases listGetD_mem_or d0 (b :: u) 0 with h2 | h2
        · exact Or.inl (hsub _ (hp1 ▸ h2))
        · exact Or.inr (hp1 ▸ h2)
      · intro hx
        rw [← hp2] at hx
        rcases mem_sift_down_to_bottom le d0 x _ _ hx with h2 | h2
        · rcases mem_setIdx x _ (b :: u) 0 h2 with h3 | h3
          · exact Or.inl (hsub _ h3)
          · rcases listGetD_mem_or d0 (a :: t) ((a :: t).length - 1) with h4 | h4
            · exact Or.inl (h3 ▸ h4)
            · exact Or.inr (h3.trans h4)
        · exact Or.inr h2

theorem mem_sdr_loop (x y : α) (endd : Nat) :
    ∀ (fuel : Nat) (data : List α) (pos : Nat),
      x ∈ sdr_loop le d0 y endd fuel data pos → x ∈ data ∨ x = y ∨ x = d0 := by
  intro fuel
  induction fuel with
  | zero =>
    intro data pos h
    rcases mem_setIdx x y data pos h with h2 | h2
    · exact Or.inl h2
    · exact Or.inr (Or.inl h2)
  | succ f ih =>
    intro data pos h
    simp only [sdr_loop] at h
    rcases list_mem_ite h with h | h
    · rcases list_mem_ite h with h | h
      · rcases mem_setIdx x y data pos h with h2 | h2
        · exact Or.inl h2
        · exact Or.inr (Or.inl h2)
      · rcases ih _ _ h with h2 | h2 | h2
        · rcases mem_setIdx x _ data pos h2 with h3 | h3
          · exact Or.inl h3
          · rcases listGetD_mem_or d0 data _ with h4 | h4
            · exact Or.inl (h3 ▸ h4)
            · exact Or.inr (Or.inr (h3.trans h4))
        · exact Or.inr (Or.inl h2)
        · exact Or.inr (Or.inr h2)
    · rcases list_mem_ite h with h | h
      · rcases mem_setIdx x y _ _ h with h2 | h2
        · rcases mem_setIdx x _ data pos h2 with h3 | h3
          · exact Or.inl h3
          · rcases listGetD_mem_or d0 data _ with h4 | h4
            · exact Or.inl (h3 ▸ h4)
            · exact Or.inr (Or.inr (h3.trans h4))
        · exact Or.inr (Or.inl h2)
      · rcases mem_setIdx x y data pos h with h2 | h2
        · exact Or.inl h2
        · exact Or.inr (Or.inl h2)

theorem mem_sift_down_range (x : α) (data : List α) (pos endd : Nat) :
    x ∈ sift_down_range le d0 data pos endd → x ∈ data ∨ x = d0 := by
  intro h
  simp only [sift_down_range] at h
  rcases mem_sdr_loop le d0 x _ _ _ _ _ h with h2 | h2 | h2
  · exact Or.inl h2
  · rcases listGetD_mem_or d0 data pos with h3 | h3
    · exact Or.inl (h2 ▸ h3)
    · exact Or.inr (h2.trans h3)
  · exact Or.inr h2

theorem mem_rebuild_loop (x : α) (len : Nat) :
    ∀ (n : Nat) (data : List α),
      x ∈ rebuild_loop le d0 len n data → x ∈ data ∨ x = d0 := by
  intro n
  induction n with
  | zero => intro data h; exact Or.inl h
  | succ m ih =>
    intro data h
    simp only [rebuild_loop] at h
    rcases ih _ h with h2 | h2
    · exact mem_sift_down_range le d0 x data m len h2
    · exact Or.inr h2

theorem mem_sift_up_from (x : α) :
    ∀ (k i : Nat) (data : List α),
      x ∈ sift_up_from le d0 i k data → x ∈ data ∨ x = d0 := by
  intro k
  induction k with
  | zero => intro i data h; exact Or.inl h
  | succ m ih =>
    intro i data h
    simp only [sift_up_from] at h
    rcases ih _ _ h with h2 | h2
    · rw [sift_up] at h2
      rcases mem_sift_up_aux le d0 x _ _ _ _ _ h2 with h3 | h3 | h3
      · exact Or.inl h3
      · rcases listGetD_mem_or d0 data i with h4 | h4
        · exact Or.inl (h3 ▸ h4)
        · exact Or.inr (h3.trans h4)
      · exact Or.inr h3
    · exact Or.inr h2

theorem mem_heap_retain (x : α) (pred : α → Bool) (data : List α) :
    x ∈ heap_retain le d0 pred data → x ∈ data ∨ x = d0 := by
  intro h
  simp only [heap_retain] at h
  have hkept : ∀ z : α, z ∈ data.filter pred → z ∈ data := fun z hz =>
    List.mem_of_mem_filter hz
  rcases list_mem_ite h with h | h
  · exact Or.inl (hkept x h)
  · rcases list_mem_ite h with h | h
    · rcases mem_rebuild_loop le d0 x _ _ _ h with h2 | h2
      · exact Or.inl (hkept x h2)
      · exact Or.inr h2
    · rcases mem_sift_up_from le d0 x _ _ _ h with h2 | h2
      · exact Or.inl (hkept x h2)
      · exact Or.inr h2

end HeapMem

section ReplayLemmas

variable {Pos Move : Type} (g : Game Pos Move)

theorem replayTake_zero (p : Pos) (l : PV Move) : replayTake g p l 0 = some p := by
  cases l with
  | nil => rfl
  | cons a t => cases a <;> rfl

theorem length_setIdx {α : Type} (y : α) :
    ∀ (l : List α) (i : Nat), (setIdx l i y).length = l.length := by
  intro l
  induction l with
  | nil => intro i; rfl
  | cons a t ih =>
    intro i
    cases i with
    | zero => rfl
    | succ j => simp [setIdx, ih j]

/-- Writing at or beyond the replayed prefix does not change the replay. -/
theorem replayTake_setIdx_ge (y : Option Move) :
    ∀ (l : PV Move) (k i : Nat) (p : Pos), k ≤ i →
      replayTake g p (setIdx l i y) k = replayTake g p l k := by
  intro l
  induction l with
  | nil => intro k i p _; cases k <;> rfl
  | cons a t ih =>
    intro k i p hk
    cases k with
    | zero => simp [replayTake_zero]
    | succ k2 =>
      cases i with
      | zero => omega
      | succ i2 =>
        cases a with
        | none => rfl
        | some mv =>
          simp only [setIdx, replayTake]
          exact ih k2 i2 (g.playMove p mv) (by omega)

/-- Extending a successful replay by one freshly written move. -/
theorem replayTake_setIdx_snoc (mv : Move) :
    ∀ (l : PV Move) (k : Nat) (p q : Pos), k < l.length →
      replayTake g p l k = some q →
      replayTake g p (setIdx l k (some mv)) (k + 1) = some (g.playMove q mv) := by
  intro l
  induction l with
  | nil => intro k p q hk; simp at hk
  | cons a t ih =>
    intro k p q hk hr
    cases k with
    | zero =>
      rw [replayTake_zero] at hr
      obtain rfl := Option.some_inj.mp hr
      simp [setIdx, replayTake, replayTake_zero]
    | succ k2 =>
      cases a with
      | none => simp [replayTake] at hr
      | some mv2 =>
        simp only [replayTake] at hr
        simp only [setIdx, replayTake]
        exact ih k2 (g.playMove p mv2) q (by simpa using Nat.lt_of_succ_lt_succ hk) hr

/-- Splitting one step off the end of a successful replay. -/
theorem replayTake_succ_split :
    ∀ (l : PV Move) (k : Nat) (p q : Pos), k < l.length →
      replayTake g p l (k + 1) = some q →
      ∃ p2 mv, replayTake g p l k = some p2 ∧ l.get? k = some (some mv) ∧
        g.playMove p2 mv = q := by
  intro l
  induction l with
  | nil => intro k p q hk; simp at hk
  | cons a t ih =>
    intro k p q hk hr
    cases a with
    | none => simp [replayTake] at hr
    | some mv2 =>
      cases k with
      | zero =>
        simp only [replayTake] at hr
        refine ⟨p, mv2, rfl, rfl, ?_⟩
        simpa using hr
      | succ k2 =>
        simp only [replayTake] at hr
        obtain ⟨p2, mv, h1, h2, h3⟩ :=
          ih k2 (g.playMove p mv2) q (by simpa using Nat.lt_of_succ_lt_succ hk) hr
        exact ⟨p2, mv, h1, h2, h3⟩

/-- Every slot strictly inside a successful replay holds a move. -/
theorem replayTake_slot_isSome :
    ∀ (l : PV Move) (k : Nat) (p q : Pos), replayTake g p l k = some q →
      ∀ j, j < k → j < l.length → ∃ mv, l.get? j = some (some mv) := by
  intro l
  induction l with
  | nil => intro k p q _ j _ hj; simp at hj
  | cons a t ih =>
    intro k p q hr j hjk hjl
    cases k with
    | zero => omega
    | succ k2 =>
      cases a with
      | none => simp [replayTake] at hr
      | some mv2 =>
        simp only [replayTake] at hr
        cases j with
        | zero => exact ⟨mv2, rfl⟩
        | succ j2 =>
          exact ih k2 (g.playMove p mv2) q hr j2 (by omega) (by simpa using hjl)

/-- Replaying within the kept prefix ignores the replaced tail. -/
theorem replayTake_take_append (r : PV Move) :
    ∀ (l : PV Move) (k j : Nat) (p : Pos), k ≤ j → k ≤ l.length →
      replayTake g p (l.take j ++ r) k = replayTake g p l k := by
  intro l
  induction l with
  | nil =>
    intro k j p hkj hkl
    have hk0 : k = 0 := by simpa using hkl
    subst hk0
    simp [replayTake_zero]
  | cons a t ih =>
    intro k j p hkj hkl
    cases k with
    | zero => simp [replayTake_zero]
    | succ k2 =>
      cases j with
      | zero => omega
      | succ j2 =>
        cases a with
        | none => rfl
        | some mv =>
          simp only [List.take, List.cons_append, replayTake]
          exact ih k2 j2 (g.playMove p mv) (by omega) (by simpa using hkl)

theorem clear_from_length :
    ∀ (l : PV Move) (k m : Nat), l.length = m → k ≤ m →
      (clear_from l k m : PV Move).length = m := by
  intro l k m hl hk
  simp [clear_from, hl]
  omega

end ReplayLemmas

section SSSInv

variable {Pos Move : Type} [DecidableEq Pos] [DecidableEq Move]
variable (g : Game Pos Move) (maxDepth : Nat) (root : Pos)

/-- Membership through the fold of pushes used by Max-node expansion. -/
theorem mem_foldl_push {α β : Type} (le : α → α → Bool) (d0 : α) (f : β → α) (x : α) :
    ∀ (ms : List β) (init : List α),
      x ∈ ms.foldl (fun hp mv => heap_push le d0 hp (f mv)) init →
      x ∈ init ∨ (∃ mv ∈ ms, x = f mv) ∨ x = d0 := by
  intro ms
  induction ms with
  | nil => intro init h; exact Or.inl h
  | cons m ms2 ih =>
    intro init h
    rcases ih (heap_push le d0 init (f m)) h with h2 | h2 | h2
    · rcases mem_heap_push le d0 x (f m) init h2 with h3 | h3 | h3
      · exact Or.inl h3
      · exact Or.inr (Or.inl ⟨m, List.mem_cons_self _ _, h3⟩)
      · exact Or.inr (Or.inr h3)
    · obtain ⟨mv, hmv, hx⟩ := h2
      exact Or.inr (Or.inl ⟨mv, List.mem_cons_of_mem _ hmv, hx⟩)
    · exact Or.inr (Or.inr h2)

omit [DecidableEq Pos] [DecidableEq Move] in
/-- Expanding a Live node one ply preserves the OPEN-list invariant. -/
theorem StInv_child (n : Pos) (mer mer2 : Int × PV Move) (d : Nat) (l : PV Move)
    (it it2 : Nat) (mv : Move)
    (hInv : StInv g maxDepth root (SState.live n mer d l it)) (hd : 1 ≤ d) :
    StInv g maxDepth root
      (SState.live (g.playMove n mv) mer2 (d - 1) (setIdx l (maxDepth - d) (some mv)) it2) := by
  obtain ⟨h1, h2, h3⟩ := hInv
  simp only [SState.node, SState.depth, SState.line] at h1 h2 h3
  simp only [StInv, SState.node, SState.depth, SState.line]
  refine ⟨by omega, by rw [length_setIdx]; exact h2, ?_⟩
  have hk : maxDepth - (d - 1) = (maxDepth - d) + 1 := by omega
  rw [hk]
  exact replayTake_setIdx_snoc g mv l (maxDepth - d) root n (by omega) h3

omit [DecidableEq Pos] [DecidableEq Move] in
/-- A Solved pop below the root resolves to a parent on the recorded line. -/
theorem StInv_parent_split (n : Pos) (mer : Int × PV Move) (d : Nat) (l : PV Move)
    (it : Nat)
    (hInv : StInv g maxDepth root (SState.solved n mer d l it)) (hd : d < maxDepth) :
    ∃ p2 mv, replayTake g root l (maxDepth - d - 1) = some p2 ∧
      l.get? (maxDepth - d - 1) = some (some mv) ∧ g.playMove p2 mv = n := by
  obtain ⟨h1, h2, h3⟩ := hInv
  simp only [SState.node, SState.depth, SState.line] at h1 h2 h3
  have hk : maxDepth - d = (maxDepth - d - 1) + 1 := by omega
  rw [hk] at h3
  exact replayTake_succ_split g l (maxDepth - d - 1) root n (by omega) h3

omit [DecidableEq Pos] [DecidableEq Move] in
/-- The Solved parent pushed by Cases 1 and 3 satisfies the invariant. -/
theorem StInv_parent (mer2 : Int × PV Move) (d : Nat) (l : PV Move) (it2 : Nat)
    (p2 : Pos) (hd : d < maxDepth) (hlen : l.length = maxDepth)
    (hrep : replayTake g root l (maxDepth - d - 1) = some p2) :
    StInv g maxDepth root (SState.solved p2 mer2 (d + 1) l it2) := by
  simp only [StInv, SState.node, SState.depth, SState.line]
  refine ⟨by omega, hlen, ?_⟩
  have hk : maxDepth - (d + 1) = maxDepth - d - 1 := by omega
  rw [hk]
  exact hrep

omit [DecidableEq Pos] [DecidableEq Move] in
/-- The Live sibling pushed by Case 2 satisfies the invariant. -/
theorem StInv_sibling (mer2 : Int × PV Move) (d : Nat) (l : PV Move) (it2 : Nat)
    (p2 : Pos) (nm : Move) (hd : d < maxDepth) (hlen : l.length = maxDepth)
    (hrep : replayTake g root l (maxDepth - d - 1) = some p2) :
    StInv g maxDepth root
      (SState.live (g.playMove p2 nm) mer2 d
        (clear_from (setIdx l (maxDepth - d - 1) (some nm)) (maxDepth - d - 1 + 1) maxDepth)
        it2) := by
  have hlen2 : (setIdx l (maxDepth - d - 1) (some nm)).length = maxDepth := by
    rw [length_setIdx]; exact hlen
  simp only [StInv, SState.node, SState.depth, SState.line]
  refine ⟨by omega, clear_from_length _ _ _ hlen2 (by omega), ?_⟩
  simp only [clear_from]
  set pl := maxDepth - d - 1 with hpl
  have hcount : maxDepth - d = pl + 1 := by omega
  rw [hcount]
  rw [replayTake_take_append g _ _ (pl + 1) (pl + 1) root (le_refl _) (by rw [hlen2]; omega)]
  exact replayTake_setIdx_snoc g nm l pl root p2 (by omega) hrep

/-- The OPEN-list invariant is preserved by the whole loop: every popped
state satisfies it and the `unwrap` panic is unreachable. -/
theorem sss_loop_inv (depthArg : Nat) (d0 : SState Pos Move)
    (hd0 : StInv g maxDepth root d0) :
    ∀ (fuel : Nat) (heap : List (SState Pos Move)) (i cnt : Nat),
      (∀ s ∈ heap, StInv g maxDepth root s) →
      (∀ s ∈ (sss_loop g maxDepth depthArg root d0 fuel heap i cnt).1,
        StInv g maxDepth root s) ∧
      (sss_loop g maxDepth depthArg root d0 fuel heap i cnt).2 ≠
        some SSSResult.unwrapPanic := by
  intro fuel
  induction fuel with
  | zero =>
    intro heap i cnt hh
    exact ⟨fun s hs => by simp [sss_loop] at hs, by simp [sss_loop]⟩
  | succ f ih =>
    intro heap i cnt hh
    rw [sss_loop]
    cases hp : heap_pop state_le d0 heap with
    | none => exact ⟨fun s hs => by simp at hs, by simp⟩
    | some popped =>
      obtain ⟨st, rest⟩ := popped
      have hst : StInv g maxDepth root st := by
        rcases (mem_heap_pop state_le d0 st st heap rest hp).1 with h | h
        · exact hh st h
        · exact h ▸ hd0
      have hrest : ∀ s ∈ rest, StInv g maxDepth root s := by
        intro s hs
        rcases (mem_heap_pop state_le d0 s st heap rest hp).2 hs with h | h
        · exact hh s h
        · exact h ▸ hd0
      cases st with
      | solved n mer d l it =>
        obtain ⟨hm, pvm⟩ := mer
        by_cases hdm : (d == maxDepth) = true
        · simp only [if_pos hdm]
          refine ⟨?_, by simp⟩
          intro s hs
          rcases List.mem_singleton.mp hs with rfl
          exact hst
        · simp only [if_neg hdm]
          have hdlt : d < maxDepth := by
            have h1 := hst.1
            simp only [SState.depth] at h1
            have : d ≠ maxDepth := by simpa using hdm
            omega
          obtain ⟨p2, mv, hrep, hslot, hplay⟩ :=
            StInv_parent_split g maxDepth root n (hm, pvm) d l it hst hdlt
          simp only [hrep]
          have hlen : l.length = maxDepth := hst.2.1
          have hmaxp :
              ∀ (heap2 : List (SState Pos Move)) (cnt2 : Nat),
                (∀ s ∈ heap2, StInv g maxDepth root s) →
                (∀ s ∈ (SState.solved n (hm, pvm) d l it ::
                    (sss_loop g maxDepth depthArg root d0 f heap2 (i + 1) cnt2).1),
                  StInv g maxDepth root s) ∧
                (sss_loop g maxDepth depthArg root d0 f heap2 (i + 1) cnt2).2 ≠
                  some SSSResult.unwrapPanic := by
            intro heap2 cnt2 hh2
            obtain ⟨ht, hu⟩ := ih heap2 (i + 1) cnt2 hh2
            refine ⟨?_, hu⟩
            intro s hs
            rcases List.mem_cons.mp hs with rfl | hs2
            · exact hst
            · exact ht s hs2
          by_cases hmp : ((SState.solved n (hm, pvm) d l it).is_max_player maxDepth) = true
          · simp only [if_pos hmp]
            cases hs : next_sibling g p2 n with
            | some nextMove =>
              exact hmaxp _ _ (fun s hsm => by
                rcases mem_heap_push state_le d0 s _ rest hsm with h2 | h2 | h2
                · exact hrest s h2
                · exact h2 ▸ StInv_sibling g maxDepth root (hm, pvm) d l i p2 nextMove
                    hdlt hlen hrep
                · exact h2 ▸ hd0)
            | none =>
              exact hmaxp _ _ (fun s hsm => by
                rcases mem_heap_push state_le d0 s _ rest hsm with h2 | h2 | h2
                · exact hrest s h2
                · exact h2 ▸ StInv_parent g maxDepth root (hm, pvm) d l i p2 hdlt hlen hrep
                · exact h2 ▸ hd0)
          · simp only [if_neg hmp]
            exact hmaxp _ _ (fun s hsm => by
              rcases mem_heap_push state_le d0 s _
                (heap_retain state_le d0 (purge_keep l (maxDepth - d - 1)) rest) hsm
                with h2 | h2 | h2
              · rcases mem_heap_retain state_le d0 s _ rest h2 with h3 | h3
                · exact hrest s h3
                · exact h3 ▸ hd0
              · exact h2 ▸ StInv_parent g maxDepth root (hm, pvm) d l i p2 hdlt hlen hrep
              · exact h2 ▸ hd0)
      | live n mer d l it =>
        obtain ⟨hm, pvm⟩ := mer
        have hmaxp :
            ∀ (heap2 : List (SState Pos Move)) (cnt2 : Nat),
              (∀ s ∈ heap2, StInv g maxDepth root s) →
              (∀ s ∈ (SState.live n (hm, pvm) d l it ::
                  (sss_loop g maxDepth depthArg root d0 f heap2 (i + 1) cnt2).1),
                StInv g maxDepth root s) ∧
              (sss_loop g maxDepth depthArg root d0 f heap2 (i + 1) cnt2).2 ≠
                some SSSResult.unwrapPanic := by
          intro heap2 cnt2 hh2
          obtain ⟨ht, hu⟩ := ih heap2 (i + 1) cnt2 hh2
          refine ⟨?_, hu⟩
          intro s hs
          rcases List.mem_cons.mp hs with rfl | hs2
          · exact hst
          · exact ht s hs2
        have hleafInv : ∀ (mer2 : Int × PV Move) (it2 : Nat),
            StInv g maxDepth root (SState.solved n mer2 d l it2) :=
          fun mer2 it2 => ⟨hst.1, hst.2.1, hst.2.2⟩
        by_cases hd0b : (d == 0) = true
        · simp only [if_pos hd0b]
          exact hmaxp _ _ (fun s hsm => by
            rcases mem_heap_push state_le d0 s _ rest hsm with h2 | h2 | h2
            · exact hrest s h2
            · exact h2 ▸ hleafInv _ _
            · exact h2 ▸ hd0)
        · simp only [if_neg hd0b]
          have hd1 : 1 ≤ d := by
            have : d ≠ 0 := by simpa using hd0b
            omega
          cases hlm : g.legalMoves n with
          | nil =>
            exact hmaxp _ _ (fun s hsm => by
              rcases mem_heap_push state_le d0 s _ rest hsm with h2 | h2 | h2
              · exact hrest s h2
              · exact h2 ▸ hleafInv _ _
              · exact h2 ▸ hd0)
          | cons mv restMoves =>
            by_cases hmp : ((SState.live n (hm, pvm) d l it).is_max_player maxDepth) = true
            · simp only [if_pos hmp]
              exact hmaxp _ _ (fun s hsm => by
                rcases mem_foldl_push state_le d0
                  (fun mv2 => SState.live (g.playMove n mv2) (hm, pvm) (d - 1)
                    (setIdx l (maxDepth - d) (some mv2)) i) s restMoves _ hsm
                  with h2 | h2 | h2
                · rcases mem_heap_push state_le d0 s _ rest h2 with h3 | h3 | h3
                  · exact hrest s h3
                  · exact h3 ▸ StInv_child g maxDepth root n (hm, pvm) _ d l it i mv
                      hst hd1
                  · exact h3 ▸ hd0
                · obtain ⟨mv2, _, h3⟩ := h2
                  exact h3 ▸ StInv_child g maxDepth root n (hm, pvm) _ d l it i mv2
                    hst hd1
                · exact h2 ▸ hd0)
            · simp only [if_neg hmp]
              exact hmaxp _ _ (fun s hsm => by
                rcases mem_heap_push state_le d0 s _ rest hsm with h2 | h2 | h2
                · exact hrest s h2
                · exact h2 ▸ StInv_child g maxDepth root n (hm, pvm) _ d l it i mv
                    hst hd1
                · exact h2 ▸ hd0)

end SSSInv

/-- Claim C10: when `sss` is called with its depth argument equal to the PV
length `MAX_DEPTH`, every state popped as Solved at a depth `d < MAX_DEPTH`
carries `Some` in each of the first `MAX_DEPTH - d - 1` slots of its line, the
parent-reconstruction replay of those slots succeeds and reaches the popped
node's actual parent (the position whose recorded move at slot
`MAX_DEPTH - d - 1` produces the node), and consequently the `mv.unwrap()`
panic never occurs. -/
theorem c10_solved_pops_replay_to_parent :
    ∀ {Pos Move : Type} [DecidableEq Pos] [DecidableEq Move] (g : Game Pos Move)
      (maxDepth : Nat) (root : Pos) (fuel cnt : Nat),
      (∀ s, s ∈ (sss_run g maxDepth root maxDepth fuel cnt).1 →
        ∀ (n : Pos) (mer : Int × PV Move) (d : Nat) (l : PV Move) (it : Nat),
          s = SState.solved n mer d l it → d < maxDepth →
          (∀ j, j < maxDepth - d - 1 → ∃ mv, l.get? j = some (some mv)) ∧
          ∃ p mv, replayTake g root l (maxDepth - d - 1) = some p ∧
            l.get? (maxDepth - d - 1) = some (some mv) ∧ g.playMove p mv = n) ∧
      (sss_run g maxDepth root maxDepth fuel cnt).2 ≠ some SSSResult.unwrapPanic := by
  intro Pos Move instP instM g maxDepth root fuel cnt
  have hd0 : StInv g maxDepth root (sss_init g maxDepth maxDepth root) := by
    refine ⟨le_refl _, ?_, ?_⟩
    · simp [sss_init, SState.line, allNone]
    · simp only [sss_init, SState.node, SState.depth, SState.line, Nat.sub_self]
      exact replayTake_zero g root _
  have hheap : ∀ s ∈ heap_push state_le (sss_init g maxDepth maxDepth root) []
      (sss_init g maxDepth maxDepth root), StInv g maxDepth root s := by
    intro s hs
    rw [heap_push_nil] at hs
    rcases List.mem_singleton.mp hs with rfl
    exact hd0
  obtain ⟨htrace, hpanic⟩ := sss_loop_inv g maxDepth root maxDepth
    (sss_init g maxDepth maxDepth root) hd0 fuel
    (heap_push state_le (sss_init g maxDepth maxDepth root) []
      (sss_init g maxDepth maxDepth root)) 1 cnt hheap
  constructor
  · intro s hs n mer d l it hseq hdlt
    subst hseq
    have hInv := htrace _ hs
    obtain ⟨p2, mv, hrep, hslot, hplay⟩ :=
      StInv_parent_split g maxDepth root n mer d l it hInv hdlt
    refine ⟨?_, p2, mv, hrep, hslot, hplay⟩
    intro j hj
    have h3 := hInv.2.2
    simp only [SState.node, SState.depth, SState.line] at h3
    have hlen : l.length = maxDepth := hInv.2.1
    exact replayTake_slot_isSome g l (maxDepth - d) root n h3 j (by omega) (by omega)
  · exact hpanic

/-- Witness for Claim C10 on the one-ply game: the Solved leaf entry popped
third (node 1, depth 0) has the trivially full move prefix, replays to the
root as its parent via the recorded move, and the run never hits the unwrap
panic. -/
theorem c10_solved_pops_replay_to_parent_witness :
    ((∀ j, j < 1 - 0 - 1 → ∃ mv, ([some OneMove.step] : PV OneMove).get? j = some (some mv)) ∧
      ∃ p mv, replayTake oneply 0 [some OneMove.step] (1 - 0 - 1) = some p ∧
        ([some OneMove.step] : PV OneMove).get? (1 - 0 - 1) = some (some mv) ∧
        oneply.playMove p mv = 1) ∧
    (sss_run oneply 1 0 1 10 0).2 ≠ some SSSResult.unwrapPanic := by
  have h := c10_solved_pops_replay_to_parent oneply 1 0 10 0
  refine ⟨h.1 (SState.solved 1 (5, [some OneMove.step]) 0 [some OneMove.step] 2)
    (by decide) 1 (5, [some OneMove.step]) 0 [some OneMove.step] 2 rfl (by decide), h.2⟩

end TreeSearch
